import Mathlib

/-!
Verification of the temporal-tagging and entity-resolution core of the
`featurize` pipeline (files `featurize.py` and `utils.py`).

A pandas `DataFrame` of one scrape wave is embedded as a `Wave`: its schema
(`cols`, the list of column names present), its rows (`Record`s, whose cells
are `Option String` with `none` standing for a missing/NaN cell), and the tag
columns added by the tagging steps (`tags`, an association list from tag name
to a column of cells; a tag cell is `Option Nat`, where `some 0` / `some 1`
are the integer tag values written by the taggers and `none` is the blank
string filler written by `standardize_files`).

Fallible Python code (KeyError on a missing column, NameError on an unbound
variable, ValueError from `datetime.strptime`) is embedded with
`Except String`, the error text naming the missing column / unbound variable.
-/

/-- One row of a wave table.  Cells that can be missing (NaN) are `Option`;
`slug` and `url` always exist after `add_slug` ran (rows without a url are
dropped there). -/
structure Record where
  slug : String
  url : String := ""
  email : Option String := none
  phone : Option String := none
  product_name : Option String := none
  address : Option String := none
  dispensary_name : Option String := none
  license : Option String := none
  issue_date : Option String := none
  access_date : Option String := none
  status : Option String := none
deriving DecidableEq, Repr

/-- One wave (`files[i]` in `featurize.py`): schema, rows, and the tag
columns written so far (in insertion order, as pandas keeps them). -/
structure Wave where
  cols : List String
  rows : List Record
  tags : List (String × List (Option Nat))
deriving DecidableEq, Repr

def emptyWave : Wave := { cols := [], rows := [], tags := [] }

/-- `file['slug']` as a list. -/
def slugList (w : Wave) : List String := w.rows.map (·.slug)

/-- Reading a tag column, `file[name]`; `none` when the column is absent
(a KeyError site in Python). -/
def getTag (w : Wave) (name : String) : Option (List (Option Nat)) :=
  w.tags.lookup name

/-- `file[name] = col`: overwrite the column when present, else append it —
pandas column-assignment semantics. -/
def setTag (w : Wave) (name : String) (col : List (Option Nat)) : Wave :=
  if (w.tags.lookup name).isSome then
    { w with tags := w.tags.map (fun p => if p.1 == name then (name, col) else p) }
  else
    { w with tags := w.tags ++ [(name, col)] }

/-! ### `get_slugs_up_to_i_array` (utils.py)

`slugs_up_to[0] = slugs(files[0])`, `slugs_up_to[i] = slugs(files[i]) ∪
slugs_up_to[i-1]`.  Sets of slugs are embedded as lists with union as
append; only membership is ever consumed. -/

def slugsUpToAux (acc : List String) : List Wave → List (List String)
  | [] => [acc]
  | w :: ws => acc :: slugsUpToAux (slugList w ++ acc) ws

def getSlugsUpToIArray : List Wave → List (List String)
  | [] => []
  | w :: ws => slugsUpToAux (slugList w) ws

/-! ### `tag_continued` and `tag_reappear` (featurize.py) -/

/-- `tag_continued`: for each wave `i ≥ 1`,
`files[i]['continued'] = files[i]['slug'].isin(set(files[i-1]['slug']))`. -/
def tagContinued (ws : List Wave) : List Wave :=
  (List.range ws.length).map (fun i =>
    let w := ws.getD i emptyWave
    if i = 0 then w
    else
      setTag w "continued"
        (w.rows.map (fun r =>
          some (if (slugList (ws.getD (i - 1) emptyWave)).contains r.slug then 1 else 0))))

/-- `tag_reappear`: for each wave `i ≥ 2`,
`files[i]['reappeared'] = isin(slugs_up_to_i[i-2]) & ~isin(set(files[i-1]['slug']))`. -/
def tagReappear (slugsUpToI : List (List String)) (ws : List Wave) : List Wave :=
  (List.range ws.length).map (fun i =>
    let w := ws.getD i emptyWave
    if i < 2 then w
    else
      setTag w "reappeared"
        (w.rows.map (fun r =>
          some (if (slugsUpToI.getD (i - 2) []).contains r.slug
                  && !((slugList (ws.getD (i - 1) emptyWave)).contains r.slug)
                then 1 else 0))))

def mkRec (s : String) : Record := { slug := s }

def wsC1 : List Wave :=
  [{ cols := ["url"], rows := [mkRec "a"], tags := [] },
   { cols := ["url"], rows := [mkRec "b"], tags := [] },
   { cols := ["url"], rows := [mkRec "a"], tags := [] }]

def wsC8 : List Wave :=
  [{ cols := ["url"], rows := [mkRec "s1"], tags := [] },
   { cols := ["url"], rows := [mkRec "s2"], tags := [] },
   { cols := ["url"], rows := [mkRec "s1"], tags := [] }]

/-! ### `tag_field_changes` (featurize.py)

For each wave `i ≥ 1` and each field of `TAG_CHANGE_FIELDS` in order: if the
field is missing from the schema of wave `i` or of wave `i-1`, `break` (the
remaining fields of this wave are skipped too); otherwise build
`changed_<field>`: a row gets 1 iff its `continued` value is 1 and the
field's value differs (Python `!=`) from the value the same slug had in wave
`i-1` (a dict from slug to value, default `None`). -/

def TAG_CHANGE_FIELDS : List String := ["address", "dispensary_name", "email"]

/-- Column access for the monitored change fields. -/
def field_of (r : Record) (f : String) : Option String :=
  if f == "address" then r.address
  else if f == "dispensary_name" then r.dispensary_name
  else if f == "email" then r.email
  else none

/-- Python `!=` on cell values: a missing value (a NaN cell, or the
`defaultdict`'s `None`) compares unequal to everything, including another
missing value (`nan != nan` is `True`). -/
def pyNe : Option String → Option String → Bool
  | some a, some b => a != b
  | _, _ => true

/-- `prev_slug_to_prev_field_value[slug]`: the dict is filled in row order so
a later row with the same slug overwrites an earlier one, and a slug that is
absent from the previous wave yields the `None` default (flattened into the
missing-cell case, which `pyNe` treats the same way). -/
def lastFieldValueBySlug (rows : List Record) (f : String) (s : String) : Option String :=
  ((rows.reverse.find? (fun r => r.slug == s)).map (fun r => field_of r f)).join

def mkChangedCol (prevRows currRows : List Record) (f : String)
    (contCol : List (Option Nat)) : List (Option Nat) :=
  (currRows.zip contCol).map (fun rc =>
    some (if rc.2 == some 1
             && pyNe (lastFieldValueBySlug prevRows f rc.1.slug) (field_of rc.1 f)
          then 1 else 0))

/-- The inner `for field in TAG_CHANGE_FIELDS` loop for one wave, with the
`break` on a field missing from either schema, and the KeyError on a missing
`continued` column embedded as an error. -/
def processFields (prev curr : Wave) : List String → Except String Wave
  | [] => .ok curr
  | f :: rest =>
    if f ∈ curr.cols ∧ f ∈ prev.cols then
      match getTag curr "continued" with
      | some contCol =>
          processFields prev
            (setTag curr ("changed_" ++ f) (mkChangedCol prev.rows curr.rows f contCol)) rest
      | none => .error "continued"
    else .ok curr

/-- Explicit-recursion effectful map (the loop bodies that can raise). -/
def mapE {α β : Type} (f : α → Except String β) : List α → Except String (List β)
  | [] => .ok []
  | x :: xs =>
    match f x with
    | .error e => .error e
    | .ok y =>
      match mapE f xs with
      | .error e => .error e
      | .ok ys => .ok (y :: ys)

/-- `tag_field_changes`: the loop `for i in range(1, file_count)`; wave 0 is
untouched. -/
def tagFieldChanges (ws : List Wave) : Except String (List Wave) :=
  mapE (fun i =>
    if i = 0 then .ok (ws.getD i emptyWave)
    else processFields (ws.getD (i - 1) emptyWave) (ws.getD i emptyWave) TAG_CHANGE_FIELDS)
    (List.range ws.length)

def isErr {ε α : Type} : Except ε α → Bool
  | .error _ => true
  | .ok _ => false

def wsC7 : List Wave :=
  [{ cols := ["url", "address", "dispensary_name", "email"],
     rows := [{ slug := "a", address := some "12 elm st" }], tags := [] },
   { cols := ["url", "address", "dispensary_name", "email"],
     rows := [{ slug := "a", address := some "90 oak st" }], tags := [] }]

/-! ### `tag_license_status` (featurize.py) and date conversion (utils.py)

`convert_str_to_datetime_maker(fmt)` returns a float (NaN) argument
unchanged and calls `datetime.strptime` on a string, which raises
`ValueError` on a malformed date.  `strptime` for the two literal formats
`%m/%d/%Y` and `%Y-%m-%d` is modelled by a splitting parser whose result is
the number `y*10000 + m*100 + d`, which orders exactly like the dates.
Pandas comparison of object columns evaluates to `False` whenever an operand
is missing; the boolean `&` chain then treats such rows as 0. -/

def splitCharAux (c : Char) : List Char → List Char → List (List Char)
  | [], acc => [acc.reverse]
  | x :: xs, acc =>
    if x = c then acc.reverse :: splitCharAux c xs []
    else splitCharAux c xs (x :: acc)

def digitsToNat? (l : List Char) : Option Nat :=
  if l ≠ [] ∧ l.all (·.isDigit) then
    some (l.foldl (fun n c => n * 10 + (c.toNat - 48)) 0)
  else none

/-- `datetime.strptime(s, '%m/%d/%Y')` (registry dates). -/
def parseMDY (s : String) : Except String Nat :=
  match splitCharAux '/' s.data [] with
  | [ms, ds, ys] =>
    match digitsToNat? ms, digitsToNat? ds, digitsToNat? ys with
    | some m, some d, some y =>
      if 1 ≤ m ∧ m ≤ 12 ∧ 1 ≤ d ∧ d ≤ 31 then .ok (y * 10000 + m * 100 + d)
      else .error "strptime"
    | _, _, _ => .error "strptime"
  | _ => .error "strptime"

/-- `datetime.strptime(s, '%Y-%m-%d')` (access dates). -/
def parseYMD (s : String) : Except String Nat :=
  match splitCharAux '-' s.data [] with
  | [ys, ms, ds] =>
    match digitsToNat? ys, digitsToNat? ms, digitsToNat? ds with
    | some y, some m, some d =>
      if 1 ≤ m ∧ m ≤ 12 ∧ 1 ≤ d ∧ d ≤ 31 then .ok (y * 10000 + m * 100 + d)
      else .error "strptime"
    | _, _, _ => .error "strptime"
  | _ => .error "strptime"

/-- `convert_str_to_datetime_maker(fmt)` applied to one cell: a missing cell
(a float NaN) passes through unchanged, a string is parsed and a parse
failure raises. -/
def parseCell (p : String → Except String Nat) : Option String → Except String (Option Nat)
  | none => .ok none
  | some s =>
    match p s with
    | .ok d => .ok (some d)
    | .error e => .error e

/-- Pandas `<=` on object cells: `False` when either side is missing. -/
def cmpLe : Option Nat → Option Nat → Bool
  | some a, some b => a ≤ b
  | _, _ => false

/-- Pandas `>` on object cells: `False` when either side is missing. -/
def cmpGt : Option Nat → Option Nat → Bool
  | some a, some b => b < a
  | _, _ => false

def leadsWith : List Char → List Char → Bool
  | [], _ => true
  | _ :: _, [] => false
  | a :: as, b :: bs => a = b && leadsWith as bs

def hasSubList (pat : List Char) : List Char → Bool
  | [] => leadsWith pat []
  | c :: rest => leadsWith pat (c :: rest) || hasSubList pat rest

/-- `Series.str.contains` (substring; the category words contain no regex
metacharacters); a NaN status row contributes a falsy value to the `&`
chain. -/
def containsSub : Option String → String → Bool
  | some s, sub => hasSubList sub.data s.data
  | none, _ => false

def LICENSE_STATUSES : List String := ["active", "canceled", "expired", "revoked", "suspended"]

/-- `file['status'].unique()` as consumed by `in`: the set of status values
that actually occur (NaN never equals a category word). -/
def exactStatuses (w : Wave) : List String := w.rows.filterMap (·.status)

def setTags (w : Wave) : List (String × List (Option Nat)) → Wave
  | [] => w
  | (n, c) :: ts => setTags (setTag w n c) ts

/-- The per-row condition of one category tag of `tag_license_status`:
license present ∧ issue date present ∧ parsed issue date ≤ parsed access
date ∧ status contains the category word. -/
def licCond (r : Record) (cat : String) : Except String Bool :=
  match parseCell parseMDY r.issue_date, parseCell parseYMD r.access_date with
  | .ok iD, .ok aD =>
    .ok (r.license.isSome && r.issue_date.isSome && cmpLe iD aD && containsSub r.status cat)
  | .error e, _ => .error e
  | _, .error e => .error e

/-- `tag_license_status` for one wave: only if the wave has a `license`
column; each category column is created only when the bare category word
occurs as an exact status value (`license_status in file['status'].unique()`);
`possible_license` and `future_license_explicit` are always created.  Date
parsing happens for every row (the `future_license_explicit` column parses
both date columns unconditionally), so one malformed date string raises. -/
def tagLicenseStatus (w : Wave) : Except String Wave :=
  if "license" ∈ w.cols then
    match mapE (fun r => parseCell parseMDY r.issue_date) w.rows,
          mapE (fun r => parseCell parseYMD r.access_date) w.rows with
    | .ok issueDs, .ok accessDs =>
      let catTags := LICENSE_STATUSES.filterMap (fun cat =>
        if cat ∈ exactStatuses w then
          some (cat ++ "_license",
            (w.rows.zip (issueDs.zip accessDs)).map (fun x =>
              some (if x.1.license.isSome && x.1.issue_date.isSome
                       && cmpLe x.2.1 x.2.2 && containsSub x.1.status cat
                    then 1 else 0)))
        else none)
      let possible := w.rows.map (fun r =>
        some (if r.license.isSome && r.issue_date.isNone then 1 else 0))
      let future := (w.rows.zip (issueDs.zip accessDs)).map (fun x =>
        some (if x.1.license.isSome && x.1.issue_date.isSome && cmpGt x.2.1 x.2.2
              then 1 else 0))
      .ok (setTags w (catTags ++ [("possible_license", possible),
                                  ("future_license_explicit", future)]))
    | .error e, _ => .error e
    | _, .error e => .error e
  else .ok w

/-! ### `tag_assumed_license_status` (featurize.py)

`file_after_i['active_license']` and
`set(x['slug'][x['active_license'] == 1]) if 'license' in x.columns else {}`
both raise `KeyError` when a wave carries a `license` column but was never
given an `active_license` column. -/

/-- `set(file['slug'][file['active_license'] == 1])`; KeyError when the
column is absent. -/
def activeSlugsOf (w : Wave) : Except String (List String) :=
  match getTag w "active_license" with
  | some col => .ok ((w.rows.zip col).filterMap (fun rc =>
      if rc.2 == some 1 then some rc.1.slug else none))
  | none => .error "active_license"

/-- `active_license_slugs_after_i`, built from the last wave backwards with
`insert(0, ...)`: entry `i` is the union of active-license slug sets of the
waves strictly after `i` (license-less waves propagate the set unchanged). -/
def buildAfter : List Wave → Except String (List (List String))
  | [] => .ok [[]]
  | [_] => .ok [[]]
  | _ :: w :: rest =>
    match buildAfter (w :: rest) with
    | .error e => .error e
    | .ok tail =>
      if "license" ∈ w.cols then
        match activeSlugsOf w with
        | .error e => .error e
        | .ok act => .ok ((act ++ tail.headD []) :: tail)
      else .ok (tail.headD [] :: tail)

/-- `tag_assumed_license_status`: the backward union pass, the per-wave
active-slug sets, then `assumed_license = isin(after_i) & ~isin(at_i)`. -/
def tagAssumedLicenseStatus (ws : List Wave) : Except String (List Wave) :=
  match buildAfter ws with
  | .error e => .error e
  | .ok afterSets =>
    match mapE (fun w => if "license" ∈ w.cols then activeSlugsOf w else .ok []) ws with
    | .error e => .error e
    | .ok atSets =>
      .ok ((List.range ws.length).map (fun i =>
        setTag (ws.getD i emptyWave) "assumed_license"
          ((ws.getD i emptyWave).rows.map (fun r =>
            some (if (afterSets.getD i []).contains r.slug
                     && !((atSets.getD i []).contains r.slug)
                  then 1 else 0)))))

def waveC3 : Wave :=
  { cols := ["url", "license", "status", "issue_date", "access_date"],
    rows := [{ slug := "a", license := some "lic1", status := some "active, pending renewal",
               issue_date := some "01/01/2019", access_date := some "2019-06-01" }],
    tags := [] }

def recC3 : Record :=
  { slug := "a", license := some "lic1", status := some "active, pending renewal",
    issue_date := some "01/01/2019", access_date := some "2019-06-01" }

/-- C3 counterexample: a wave whose only status value is
"active, pending renewal" (license present, issue date before the access
date).  The per-record condition of the claim holds (`licCond … = ok true`),
yet `tag_license_status` creates no `active_license` column at all — because
`'active' in file['status'].unique()` tests exact equality of status values
— so the tag of this record is not 1. -/
instance exceptDecidableEq {ε α : Type} [DecidableEq ε] [DecidableEq α] :
    DecidableEq (Except ε α) := fun x y =>
  match x, y with
  | .ok a, .ok b =>
    if h : a = b then .isTrue (by rw [h]) else .isFalse (fun hc => h (Except.ok.inj hc))
  | .error a, .error b =>
    if h : a = b then .isTrue (by rw [h]) else .isFalse (fun hc => h (Except.error.inj hc))
  | .ok _, .error _ => .isFalse (fun hc => Except.noConfusion hc)
  | .error _, .ok _ => .isFalse (fun hc => Except.noConfusion hc)

def c3probe : Option (List (Option Nat)) :=
  match tagLicenseStatus waveC3 with
  | .ok w' => getTag w' "active_license"
  | .error _ => some []

def wsC4 : List Wave :=
  [{ cols := ["url"], rows := [mkRec "b"], tags := [] }, waveC3]

/-- C4 counterexample: running `tag_license_status` over these two waves
succeeds but creates no `active_license` column for the second wave (its only
status is "active, pending renewal"); the subsequent
`tag_assumed_license_status` then raises (KeyError on `active_license`)
instead of completing. -/
def c4pipeline : Except String (List Wave) :=
  match mapE tagLicenseStatus wsC4 with
  | .ok ws1 => tagAssumedLicenseStatus ws1
  | .error e => .error e

def waveC6 : Wave :=
  { cols := ["url", "license", "status", "issue_date", "access_date"],
    rows := [{ slug := "a", license := some "lic1", status := some "active",
               issue_date := some "13/77/bad", access_date := some "2019-06-01" }],
    tags := [] }

def wsC4w : List Wave :=
  [{ cols := ["url", "license", "status", "issue_date", "access_date"],
     rows := [{ slug := "a", license := some "lic9" }], tags := [] }]

def waveC3w : Wave :=
  { cols := ["url", "license", "status", "issue_date", "access_date"],
    rows := [{ slug := "a", license := some "l1", status := some "active",
               issue_date := some "01/01/2019", access_date := some "2019-06-01" },
             { slug := "b", license := some "l2", status := some "active, pending renewal",
               issue_date := some "01/01/2019", access_date := some "2019-06-01" }],
    tags := [] }

def waveC6w : Wave :=
  { cols := ["url", "license", "status", "issue_date", "access_date"],
    rows := [{ slug := "a", license := some "l1", status := some "active",
               issue_date := none, access_date := some "2019-06-01" }],
    tags := [] }

/-! ### `standardize_files` (featurize.py) and `get_column_difference`
(utils.py)

`standardize_files` picks the single largest per-wave "tag" set (the columns
of the tagged file that the original file lacks) — the first one of maximal
size, not the union — and fills only those columns, with `''` (embedded as
the cell `none`), into waves that lack them. -/

def waveColumns (w : Wave) : List String := w.cols ++ w.tags.map Prod.fst

/-- `get_column_difference(df1, df2)`: the columns of `df1` not in `df2`. -/
def getColumnDifference (w full : Wave) : List String :=
  (waveColumns w).filter (fun c => !((waveColumns full).contains c))

/-- One step of the `len(file_tags) > max_tag_num` scan. -/
def pickStep (best cur : List String) : List String :=
  if cur.length > best.length then cur else best

/-- The scan itself; `max_tag_num` starts at `-1`, so the first set always
replaces the unbound initial value — starting the fold from `[]` yields the
same result.  (With zero waves the Python code would leave
`max_file_tag_set` unbound; the model returns `[]`.) -/
def pickMaxTagSet (diffs : List (List String)) : List String :=
  diffs.foldl pickStep []

/-- The second loop of `standardize_files` for one wave: walk the chosen tag
set and add each column the wave lacks, filled with `''` for every row. -/
def fillMissing (w : Wave) (fields : List String) : Wave :=
  fields.foldl (fun w f =>
    if f ∈ waveColumns w then w
    else setTag w f (List.replicate w.rows.length none)) w

def standardizeFiles (fullFiles ws : List Wave) : List Wave × List String :=
  let diffs := (List.range ws.length).map (fun i =>
    getColumnDifference (ws.getD i emptyWave) (fullFiles.getD i emptyWave))
  let maxSet := pickMaxTagSet diffs
  ((List.range ws.length).map (fun i => fillMissing (ws.getD i emptyWave) maxSet), maxSet)

/-- The tag set the spec's reconciliation sentence asks for: the union of
the tags observed across all waves (written from the spec's words, for
comparison with `standardizeFiles`). -/
def unionTags (fullFiles ws : List Wave) : List String :=
  ((List.range ws.length).map (fun i =>
    getColumnDifference (ws.getD i emptyWave) (fullFiles.getD i emptyWave))).join

def fullC5 : List Wave :=
  [{ cols := ["url"], rows := [mkRec "a"], tags := [] },
   { cols := ["url"], rows := [mkRec "a"], tags := [] }]

def wsC5 : List Wave :=
  [{ cols := ["url"], rows := [mkRec "a"], tags := [("t1", [some 1])] },
   { cols := ["url"], rows := [mkRec "a"], tags := [("t2", [some 0]), ("t3", [some 1])] }]

/-! ### `gen_company_mapping` (utils.py) — EntityResolver

The rows are grouped by slug (`groupby('slug')`, sorted index; `'first'`
aggregation takes the first non-null value, `frozenset` collects the
product-name cells).  The bucketing loop keeps three plain Python variables
`prod_set`, `email`, `phone` that are only *re-assigned when the current row
has a non-null value*: a row with a null email is appended to the bucket of
the most recently seen non-null email (stale variable), and if the first row
in sorted slug order has a null email (or null phone when the wave has a
phone column) the variable is still unbound and the append raises NameError.
An aggregated frozenset is never null, so `prod_set` is rebound every
iteration.  Buckets then drive unions in a disjoint-set structure, and each
resulting class receives a freshly generated id (`uuid.uuid1()`), modelled
by a generator parameter. -/

structure GroupedRow where
  slug : String
  email : Option String
  phone : Option String
  prodSet : List String × Bool
deriving DecidableEq, Repr

/-- Lexicographic comparison by code point (Python string ordering for the
slug character set). -/
def leChars : List Char → List Char → Bool
  | [], _ => true
  | _ :: _, [] => false
  | a :: as, b :: bs => if a = b then leChars as bs else decide (a.toNat ≤ b.toNat)

def leStr (a b : String) : Bool := leChars a.data b.data

def insertSorted (s : String) : List String → List String
  | [] => [s]
  | x :: xs => if leStr s x then s :: x :: xs else x :: insertSorted s xs

def sortStrings : List String → List String
  | [] => []
  | x :: xs => insertSorted x (sortStrings xs)

def slugRows (rows : List Record) (s : String) : List Record :=
  rows.filter (fun r => r.slug == s)

/-- One row of `df_sim_2`: the grouped view of one slug.  The product
frozenset is canonicalised as (sorted distinct product strings, whether a
NaN cell is a member). -/
def groupRow (rows : List Record) (s : String) : GroupedRow :=
  { slug := s
    email := ((slugRows rows s).filterMap (·.email)).head?
    phone := ((slugRows rows s).filterMap (·.phone)).head?
    prodSet := (sortStrings (((slugRows rows s).filterMap (·.product_name)).dedup),
                ((slugRows rows s).map (·.product_name)).any (·.isNone)) }

def groupedOf (w : Wave) : List GroupedRow :=
  (sortStrings (w.rows.map (·.slug)).dedup).map (groupRow w.rows)

def htGet {κ : Type} [DecidableEq κ] (k : κ) : List (κ × List String) → List String
  | [] => []
  | (k', l) :: rest => if k' = k then l else htGet k rest

/-- `defaultdict(lambda: []); ht[k].append(s)`. -/
def htAppend {κ : Type} [DecidableEq κ] (ht : List (κ × List String)) (k : κ) (s : String) :
    List (κ × List String) :=
  match ht with
  | [] => [(k, [s])]
  | (k', l) :: rest => if k' = k then (k', l ++ [s]) :: rest else (k', l) :: htAppend rest k s

def htMem {κ : Type} [DecidableEq κ] (ht : List (κ × List String)) (k : κ) (s : String) :
    Bool :=
  (htGet k ht).contains s

structure BuckState where
  prodVar : Option (List String × Bool)
  emailVar : Option String
  phoneVar : Option String
  productHt : List ((List String × Bool) × List String)
  emailHt : List (String × List String)
  phoneHt : List (String × List String)
deriving DecidableEq, Repr

def initBuck : BuckState :=
  { prodVar := none, emailVar := none, phoneVar := none,
    productHt := [], emailHt := [], phoneHt := [] }

/-- The `if 'phone' in df.columns` block of one loop iteration: re-assign
the `phone` variable on a non-null cell, then append to `phone_ht[phone]` —
NameError when the variable is still unbound.  Returns the new phone
variable and table. -/
def buckPhone (pc : Bool) (st : BuckState) (g : GroupedRow) :
    Except String (Option String × List (String × List String)) :=
  if pc then
    match g.phone.or st.phoneVar with
    | some p => .ok (some p, htAppend st.phoneHt p g.slug)
    | none => .error "phone"
  else .ok (st.phoneVar, st.phoneHt)

/-- One iteration of the bucketing loop over `df_sim_2.index`.  The three
variables are re-assigned only on non-null cells; the appends use whatever
the variables currently hold, raising NameError (`error`) when one is still
unbound.  The phone block runs first (only when the wave has a phone
column), then the product append, then the email append. -/
def buckStep (pc : Bool) (st : BuckState) (g : GroupedRow) : Except String BuckState :=
  match buckPhone pc st g with
  | .error e => .error e
  | .ok pv =>
    match some g.prodSet with
    | none => .error "prod_set"
    | some pk =>
      match g.email.or st.emailVar with
      | none => .error "email"
      | some ek =>
        .ok { prodVar := some g.prodSet,
              emailVar := some ek,
              phoneVar := pv.1,
              productHt := htAppend st.productHt pk g.slug,
              emailHt := htAppend st.emailHt ek g.slug,
              phoneHt := pv.2 }

def buckLoop (pc : Bool) : BuckState → List GroupedRow → Except String BuckState
  | st, [] => .ok st
  | st, g :: gs =>
    match buckStep pc st g with
    | .error e => .error e
    | .ok st' => buckLoop pc st' gs

/-- `ds.union(a, b)` on an explicit list-of-classes representation: the two
classes containing `a` and `b` are merged. -/
def unionClasses (cs : List (List String)) (a b : String) : List (List String) :=
  match cs.find? (·.contains a), cs.find? (·.contains b) with
  | some ca, some cb =>
    if ca = cb then cs
    else (cs.filter (fun c => c ≠ ca ∧ c ≠ cb)) ++ [ca ++ cb]
  | _, _ => cs

/-- `for curr_sid in bucket[1:]: ds.union(bucket[0], curr_sid)`. -/
def unionBucket (cs : List (List String)) : List String → List (List String)
  | [] => cs
  | first :: rest => rest.foldl (fun cs cur => unionClasses cs first cur) cs

def applyHt {κ : Type} (cs : List (List String)) (ht : List (κ × List String)) :
    List (List String) :=
  ht.foldl (fun cs kv => unionBucket cs kv.2) cs

/-- The equivalence classes of the disjoint-set after all unions (product
buckets, then email buckets, then phone buckets when the wave has a phone
column), starting from one singleton per grouped slug. -/
def genCompanyClasses (w : Wave) : Except String (List (List String)) :=
  match buckLoop (w.cols.contains "phone") initBuck (groupedOf w) with
  | .error e => .error e
  | .ok st =>
    let cs1 := applyHt ((groupedOf w).map (fun g => [g.slug])) st.productHt
    let cs2 := applyHt cs1 st.emailHt
    .ok (if w.cols.contains "phone" then applyHt cs2 st.phoneHt else cs2)

def assignIdsAux (gen : Nat → String) (i : Nat) : List (List String) → List (String × String)
  | [] => []
  | c :: cs => c.map (fun s => (s, gen i)) ++ assignIdsAux gen (i + 1) cs

/-- `gen_company_mapping` up to its observable result, the slug → company-id
mapping: each class of `ds.itersets()` gets a fresh id (`uuid.uuid1()`,
modelled by the generator argument — injective for genuinely fresh ids). -/
def genCompanyMapping (gen : Nat → String) (w : Wave) :
    Except String (List (String × String)) :=
  match genCompanyClasses w with
  | .error e => .error e
  | .ok cs => .ok (assignIdsAux gen 0 cs)

/-- Two slugs resolve to the same company: both are mapped and to equal
ids. -/
def sameCompany (m : List (String × String)) (a b : String) : Bool :=
  match m.lookup a, m.lookup b with
  | some x, some y => x == y
  | _, _ => false

def wC2 : Wave :=
  { cols := ["url", "email", "product_name"],
    rows := [{ slug := "a", email := some "e1", product_name := some "p1" },
             { slug := "b", email := none, product_name := some "p2" },
             { slug := "c", email := some "e2", product_name := some "p3" },
             { slug := "d", email := none, product_name := some "p4" }],
    tags := [] }

def c2probe : Bool :=
  match genCompanyMapping (fun n => String.mk (List.replicate n 'x')) wC2 with
  | .ok m => sameCompany m "b" "d"
  | .error _ => true

def wC10 : Wave :=
  { cols := ["url", "email", "product_name"],
    rows := [{ slug := "a", email := none, product_name := some "p" }],
    tags := [] }

def classIdx : List (List String) → String → Option Nat
  | [], _ => none
  | c :: cs, a => if c.contains a then some 0 else (classIdx cs a).map (· + 1)

def wC9 : Wave :=
  { cols := ["url", "email", "product_name"],
    rows := [{ slug := "a", email := some "e", product_name := some "p1" },
             { slug := "b", email := some "e", product_name := some "p2" }],
    tags := [] }

/-- The value of the Python `email` variable after processing a run of
grouped rows, starting from `init`: rows with a non-null email re-assign it,
rows with a null email leave it unchanged (stale). -/
def lastEmailD (init : Option String) (grs : List GroupedRow) : Option String :=
  grs.foldl (fun acc g => g.email.or acc) init

/-- The email bucket key used for the row at index `j` of the sorted grouped
rows: the most recent non-null email at or before `j`. -/
def emailKeyAt (grs : List GroupedRow) (j : Nat) : Option String :=
  lastEmailD none (grs.take (j + 1))

def stC2 : BuckState :=
  { prodVar := some (["p4"], false),
    emailVar := some "e2",
    phoneVar := none,
    productHt := [((["p1"], false), ["a"]), ((["p2"], false), ["b"]),
                  ((["p3"], false), ["c"]), ((["p4"], false), ["d"])],
    emailHt := [("e1", ["a", "b"]), ("e2", ["c", "d"])],
    phoneHt := [] }

theorem setTag_rows (w : Wave) (n : String) (c : List (Option Nat)) :
    (setTag w n c).rows = w.rows := by
  unfold setTag; split <;> rfl

theorem setTag_cols (w : Wave) (n : String) (c : List (Option Nat)) :
    (setTag w n c).cols = w.cols := by
  unfold setTag; split <;> rfl

theorem lookup_overwrite {α : Type} (l : List (String × α)) (n : String) (c : α) :
    (l.map (fun p => if p.1 == n then (n, c) else p)).lookup n
      = (l.lookup n).map (fun _ => c) := by
  induction l with
  | nil => rfl
  | cons p rest ih =>
    by_cases h : p.1 = n
    · subst h
      rw [List.map_cons, if_pos (by simp)]
      simp [List.lookup]
    · have hb2 : (n == p.1) = false := by simp [Ne.symm h]
      rw [List.map_cons, if_neg (by simp [h])]
      simp only [List.lookup, hb2]
      simpa using ih

theorem lookup_overwrite_ne {α : Type} (l : List (String × α)) (n m : String) (c : α)
    (hne : m ≠ n) :
    (l.map (fun p => if p.1 == n then (n, c) else p)).lookup m = l.lookup m := by
  induction l with
  | nil => rfl
  | cons p rest ih =>
    by_cases h : p.1 = n
    · have hb : (m == n) = false := by simp [hne]
      have hb2 : (m == p.1) = false := by rw [h]; exact hb
      rw [List.map_cons, if_pos (by simp [h])]
      simp only [List.lookup, hb, hb2]
      simpa using ih
    · by_cases h2 : m = p.1
      · rw [List.map_cons, if_neg (by simp [h])]
        have hb2 : (m == p.1) = true := by simp [h2]
        simp [List.lookup, hb2]
      · have hb2 : (m == p.1) = false := by simp [h2]
        rw [List.map_cons, if_neg (by simp [h])]
        simp only [List.lookup, hb2]
        simpa using ih

theorem lookup_append_of_none {α : Type} (l : List (String × α)) (n m : String) (c : α) :
    l.lookup m = none → (l ++ [(n, c)]).lookup m = if m == n then some c else none := by
  induction l with
  | nil =>
    intro _
    by_cases h : m = n
    · simp [List.lookup, h]
    · have hb : (m == n) = false := by simp [h]
      simp [List.lookup, hb]
  | cons p rest ih =>
    intro h
    by_cases hp : m = p.1
    · have hb : (m == p.1) = true := by simp [hp]
      simp [List.lookup, hb] at h
    · have hb : (m == p.1) = false := by simp [hp]
      simp only [List.lookup, hb] at h
      simp only [List.cons_append, List.lookup, hb]
      exact ih h

theorem lookup_append_left {α : Type} (l l2 : List (String × α)) (m : String) (c : α) :
    l.lookup m = some c → (l ++ l2).lookup m = some c := by
  induction l with
  | nil => intro h; simp [List.lookup] at h
  | cons p rest ih =>
    intro h
    by_cases hp : m = p.1
    · have hb : (m == p.1) = true := by simp [hp]
      simp only [List.lookup, hb] at h
      simp only [List.cons_append, List.lookup, hb]
      exact h
    · have hb : (m == p.1) = false := by simp [hp]
      simp only [List.lookup, hb] at h
      simp only [List.cons_append, List.lookup, hb]
      exact ih h

theorem getTag_setTag_self (w : Wave) (n : String) (c : List (Option Nat)) :
    getTag (setTag w n c) n = some c := by
  unfold getTag setTag
  cases hv : w.tags.lookup n with
  | some v =>
    simp only [hv, Option.isSome_some, if_true]
    rw [lookup_overwrite, hv]
    rfl
  | none =>
    simp only [hv, Option.isSome_none, Bool.false_eq_true, if_false]
    rw [lookup_append_of_none _ _ _ _ hv]
    simp

theorem getTag_setTag_ne (w : Wave) (n m : String) (c : List (Option Nat)) (hne : m ≠ n) :
    getTag (setTag w n c) m = getTag w m := by
  unfold getTag setTag
  cases hv : w.tags.lookup n with
  | some v =>
    simp only [hv, Option.isSome_some, if_true]
    exact lookup_overwrite_ne _ _ _ _ hne
  | none =>
    simp only [hv, Option.isSome_none, Bool.false_eq_true, if_false]
    cases hm : w.tags.lookup m with
    | some u => exact lookup_append_left _ _ _ _ hm
    | none =>
      rw [lookup_append_of_none _ _ _ _ hm]
      simp [hne]

theorem slugsUpToAux_getD_mem (ws : List Wave) (acc : List String) (i : Nat)
    (hi : i < ws.length + 1) (s : String) :
    s ∈ (slugsUpToAux acc ws).getD i [] ↔
      s ∈ acc ∨ ∃ k, k < i ∧ s ∈ slugList (ws.getD k emptyWave) := by
  induction ws generalizing acc i with
  | nil =>
    have h0 : i = 0 := by simpa using hi
    subst h0
    simp [slugsUpToAux]
  | cons w rest ih =>
    cases i with
    | zero => simp [slugsUpToAux]
    | succ j =>
      have hj : j < rest.length + 1 := by simpa using hi
      simp only [slugsUpToAux, List.getD_cons_succ]
      rw [ih _ j hj]
      constructor
      · rintro (h | ⟨k, hk, hks⟩)
        · rcases List.mem_append.mp h with h | h
          · exact Or.inr ⟨0, Nat.succ_pos _, by simpa using h⟩
          · exact Or.inl h
        · exact Or.inr ⟨k + 1, by omega, by simpa using hks⟩
      · rintro (h | ⟨k, hk, hks⟩)
        · exact Or.inl (List.mem_append.mpr (Or.inr h))
        · cases k with
          | zero => exact Or.inl (List.mem_append.mpr (Or.inl (by simpa using hks)))
          | succ k' => exact Or.inr ⟨k', by omega, by simpa using hks⟩

/-- Membership in `slugs_up_to[i]` is membership in some wave `0..i`. -/
theorem mem_getSlugsUpToIArray (ws : List Wave) (i : Nat) (hi : i < ws.length) (s : String) :
    s ∈ (getSlugsUpToIArray ws).getD i [] ↔
      ∃ k, k ≤ i ∧ s ∈ slugList (ws.getD k emptyWave) := by
  cases ws with
  | nil => simp at hi
  | cons w rest =>
    simp only [getSlugsUpToIArray]
    have hi' : i < rest.length + 1 := by simpa using hi
    rw [slugsUpToAux_getD_mem rest (slugList w) i hi' s]
    constructor
    · rintro (h | ⟨k, hk, hks⟩)
      · exact ⟨0, Nat.zero_le _, by simpa using h⟩
      · exact ⟨k + 1, by omega, by simpa using hks⟩
    · rintro ⟨k, hk, hks⟩
      cases k with
      | zero => exact Or.inl (by simpa using hks)
      | succ k' => exact Or.inr ⟨k', by omega, by simpa using hks⟩

theorem length_tagContinued (ws : List Wave) : (tagContinued ws).length = ws.length := by
  simp [tagContinued]

theorem length_tagReappear (S : List (List String)) (ws : List Wave) :
    (tagReappear S ws).length = ws.length := by
  simp [tagReappear]

theorem tagContinued_getD (ws : List Wave) (i : Nat) (hi : i < ws.length) :
    (tagContinued ws).getD i emptyWave =
      (if i = 0 then ws.getD i emptyWave
       else
         setTag (ws.getD i emptyWave) "continued"
           ((ws.getD i emptyWave).rows.map (fun r =>
             some (if (slugList (ws.getD (i - 1) emptyWave)).contains r.slug then 1 else 0)))) := by
  have h1 : i < (tagContinued ws).length := by rw [length_tagContinued]; exact hi
  rw [List.getD_eq_getElem _ _ h1]
  simp [tagContinued]

theorem tagReappear_getD (S : List (List String)) (ws : List Wave) (i : Nat)
    (hi : i < ws.length) :
    (tagReappear S ws).getD i emptyWave =
      (if i < 2 then ws.getD i emptyWave
       else
         setTag (ws.getD i emptyWave) "reappeared"
           ((ws.getD i emptyWave).rows.map (fun r =>
             some (if (S.getD (i - 2) []).contains r.slug
                     && !((slugList (ws.getD (i - 1) emptyWave)).contains r.slug)
                   then 1 else 0)))) := by
  have h1 : i < (tagReappear S ws).length := by rw [length_tagReappear]; exact hi
  rw [List.getD_eq_getElem _ _ h1]
  simp [tagReappear]

theorem tagContinued_rows_getD (ws : List Wave) (k : Nat) (hk : k < ws.length) :
    ((tagContinued ws).getD k emptyWave).rows = (ws.getD k emptyWave).rows := by
  rw [tagContinued_getD ws k hk]
  split
  · rfl
  · rw [setTag_rows]

theorem tagContinued_slugList_getD (ws : List Wave) (k : Nat) (hk : k < ws.length) :
    slugList ((tagContinued ws).getD k emptyWave) = slugList (ws.getD k emptyWave) := by
  unfold slugList
  rw [tagContinued_rows_getD ws k hk]

theorem getD_mem (ws : List Wave) (i : Nat) (hi : i < ws.length) :
    ws.getD i emptyWave ∈ ws := by
  rw [List.getD_eq_getElem _ _ hi]
  exact List.getElem_mem hi

/-- C1: for every ordered wave list, `tag_reappear` gives wave `i ≥ 2` a
`reappeared` column whose value for a row is 1 iff its slug is in the prefix
union of the slug sets of waves `0..i-2` (that is, in `slugs_up_to[i-2]`) and
is not in the slug set of wave `i-1`; waves 0 and 1 receive no `reappeared`
column. -/
theorem c1_reappear_tagging (ws : List Wave)
    (hclean : ∀ w ∈ ws, getTag w "reappeared" = none) :
    (∀ i, i < ws.length → i < 2 →
       getTag ((tagReappear (getSlugsUpToIArray ws) ws).getD i emptyWave) "reappeared" = none) ∧
    (∀ i, 2 ≤ i → i < ws.length →
       ∃ col,
         getTag ((tagReappear (getSlugsUpToIArray ws) ws).getD i emptyWave) "reappeared"
           = some col ∧
         ∀ j r, (ws.getD i emptyWave).rows.get? j = some r →
           (col.get? j = some (some 1) ↔
             ((∃ k, k ≤ i - 2 ∧ r.slug ∈ slugList (ws.getD k emptyWave)) ∧
              r.slug ∉ slugList (ws.getD (i - 1) emptyWave)))) := by
  constructor
  · intro i hi h2
    rw [tagReappear_getD _ _ i hi, if_pos h2]
    exact hclean _ (getD_mem ws i hi)
  · intro i h2 hi
    rw [tagReappear_getD _ _ i hi, if_neg (by omega)]
    refine ⟨_, getTag_setTag_self _ _ _, ?_⟩
    intro j r hjr
    rw [List.get?_map, hjr]
    have hiff :
        (((getSlugsUpToIArray ws).getD (i - 2) []).contains r.slug
           && !((slugList (ws.getD (i - 1) emptyWave)).contains r.slug)) = true
          ↔ ((∃ k, k ≤ i - 2 ∧ r.slug ∈ slugList (ws.getD k emptyWave)) ∧
             r.slug ∉ slugList (ws.getD (i - 1) emptyWave)) := by
      rw [← mem_getSlugsUpToIArray ws (i - 2) (by omega) r.slug]
      simp
    simp only [Option.map_some']
    constructor
    · intro h
      apply hiff.mp
      by_contra hfalse
      rw [Bool.not_eq_true] at hfalse
      rw [hfalse] at h
      simp at h
    · intro h
      rw [hiff.mpr h]
      simp

/-- C8: after `tag_continued` and then `tag_reappear` (the order `main` runs
them), in every wave `i ≥ 2` a row whose `reappeared` value is 1 has
`continued` value 0 and its slug lies in `slugs_up_to[i-2]`. -/
theorem c8_reappeared_implies_not_continued (ws : List Wave) (i : Nat)
    (h2 : 2 ≤ i) (hi : i < ws.length) (j : Nat) (r : Record)
    (hjr : (ws.getD i emptyWave).rows.get? j = some r)
    (colR colC : List (Option Nat))
    (hR : getTag ((tagReappear (getSlugsUpToIArray (tagContinued ws)) (tagContinued ws)).getD i
            emptyWave) "reappeared" = some colR)
    (hC : getTag ((tagReappear (getSlugsUpToIArray (tagContinued ws)) (tagContinued ws)).getD i
            emptyWave) "continued" = some colC)
    (h1 : colR.get? j = some (some 1)) :
    colC.get? j = some (some 0) ∧
      r.slug ∈ (getSlugsUpToIArray (tagContinued ws)).getD (i - 2) [] := by
  have hi1 : i < (tagContinued ws).length := by rw [length_tagContinued]; exact hi
  rw [tagReappear_getD _ _ i hi1, if_neg (by omega)] at hR hC
  rw [getTag_setTag_self] at hR
  rw [getTag_setTag_ne _ _ _ _ (by decide)] at hC
  rw [tagContinued_getD ws i hi, if_neg (by omega)] at hC
  rw [getTag_setTag_self] at hC
  have hrows : ((tagContinued ws).getD i emptyWave).rows = (ws.getD i emptyWave).rows :=
    tagContinued_rows_getD ws i hi
  have hprev : slugList ((tagContinued ws).getD (i - 1) emptyWave)
      = slugList (ws.getD (i - 1) emptyWave) :=
    tagContinued_slugList_getD ws (i - 1) (by omega)
  obtain rfl := Option.some.inj hR
  obtain rfl := Option.some.inj hC
  rw [List.get?_map, hrows, hjr] at h1
  rw [List.get?_map, hjr]
  simp only [Option.map_some', Option.some.injEq] at h1 ⊢
  rw [hprev] at h1
  have hb : (((getSlugsUpToIArray (tagContinued ws)).getD (i - 2) []).contains r.slug
      && !((slugList (ws.getD (i - 1) emptyWave)).contains r.slug)) = true := by
    by_contra hfalse
    rw [Bool.not_eq_true] at hfalse
    rw [hfalse] at h1
    simp at h1
  rw [Bool.and_eq_true, Bool.not_eq_true'] at hb
  refine ⟨?_, List.elem_iff.mp hb.1⟩
  rw [hb.2]
  rfl

theorem c1_reappear_tagging_witness :
    (∀ w ∈ wsC1, getTag w "reappeared" = none) ∧
    ((∀ i, i < wsC1.length → i < 2 →
       getTag ((tagReappear (getSlugsUpToIArray wsC1) wsC1).getD i emptyWave) "reappeared"
         = none) ∧
     (∀ i, 2 ≤ i → i < wsC1.length →
       ∃ col,
         getTag ((tagReappear (getSlugsUpToIArray wsC1) wsC1).getD i emptyWave) "reappeared"
           = some col ∧
         ∀ j r, (wsC1.getD i emptyWave).rows.get? j = some r →
           (col.get? j = some (some 1) ↔
             ((∃ k, k ≤ i - 2 ∧ r.slug ∈ slugList (wsC1.getD k emptyWave)) ∧
              r.slug ∉ slugList (wsC1.getD (i - 1) emptyWave))))) :=
  ⟨by decide, c1_reappear_tagging wsC1 (by decide)⟩

theorem c8_reappeared_implies_not_continued_witness :
    (wsC8.getD 2 emptyWave).rows.get? 0 = some (mkRec "s1") ∧
    (([some 0] : List (Option Nat)).get? 0 = some (some 0) ∧
      "s1" ∈ (getSlugsUpToIArray (tagContinued wsC8)).getD 0 []) :=
  ⟨by decide,
   c8_reappeared_implies_not_continued wsC8 2 (by decide) (by decide) 0 (mkRec "s1")
     (by decide) [some 1] [some 0] (by decide) (by decide) (by decide)⟩

theorem mapE_get? {α β : Type} (f : α → Except String β) (l : List α) (ys : List β)
    (h : mapE f l = .ok ys) :
    ∀ j x, l.get? j = some x → ∃ y, ys.get? j = some y ∧ f x = .ok y := by
  induction l generalizing ys with
  | nil => intro j x hx; simp at hx
  | cons a rest ih =>
    intro j x hx
    cases hfa : f a with
    | error e => rw [mapE, hfa] at h; simp at h
    | ok y0 =>
      cases hrest : mapE f rest with
      | error e => rw [mapE, hfa, hrest] at h; simp at h
      | ok ys0 =>
        rw [mapE, hfa, hrest] at h
        obtain rfl := Except.ok.inj h
        cases j with
        | zero =>
          simp only [List.get?] at hx
          obtain rfl := Option.some.inj hx
          exact ⟨y0, rfl, hfa⟩
        | succ j' =>
          simp only [List.get?] at hx
          exact ih ys0 hrest j' x hx

theorem mapE_ok_of_forall {α β : Type} (f : α → Except String β) (l : List α)
    (h : ∀ x ∈ l, ∃ y, f x = .ok y) : ∃ ys, mapE f l = .ok ys := by
  induction l with
  | nil => exact ⟨[], rfl⟩
  | cons a rest ih =>
    obtain ⟨y0, hy0⟩ := h a (List.mem_cons_self _ _)
    obtain ⟨ys0, hys0⟩ := ih (fun x hx => h x (List.mem_cons_of_mem _ hx))
    exact ⟨y0 :: ys0, by rw [mapE, hy0, hys0]⟩

theorem mapE_isErr_of_mem {α β : Type} (f : α → Except String β) (l : List α) (x : α)
    (hx : x ∈ l) (he : isErr (f x) = true) : isErr (mapE f l) = true := by
  induction l with
  | nil => simp at hx
  | cons a rest ih =>
    rcases List.mem_cons.mp hx with rfl | hx'
    · cases hfa : f x with
      | error e => rw [mapE, hfa]; rfl
      | ok y => rw [hfa] at he; simp [isErr] at he
    · cases hfa : f a with
      | error e => rw [mapE, hfa]; rfl
      | ok y =>
        cases hrest : mapE f rest with
        | error e => rw [mapE, hfa, hrest]; rfl
        | ok ys => rw [hrest] at ih; exact absurd (ih hx') (by simp [isErr])

theorem string_append_cancel_left (s a b : String) (h : s ++ a = s ++ b) : a = b := by
  have hd : s.data ++ a.data = s.data ++ b.data := by
    have := congrArg String.data h
    simpa [String.data_append] using this
  exact String.ext (List.append_cancel_left hd)

theorem processFields_spec (prev : Wave) (fs : List String) (curr : Wave)
    (contCol : List (Option Nat)) (hcont : getTag curr "continued" = some contCol)
    (hne : ∀ f ∈ fs, ("changed_" ++ f) ≠ "continued")
    (hnodup : fs.Nodup) :
    ∃ curr', processFields prev curr fs = .ok curr' ∧
      curr'.rows = curr.rows ∧ curr'.cols = curr.cols ∧
      (∀ n, (∀ f ∈ fs, n ≠ "changed_" ++ f) → getTag curr' n = getTag curr n) ∧
      (∀ k, k < fs.length →
        ((∀ k', k' ≤ k → (fs.getD k' "") ∈ curr.cols ∧ (fs.getD k' "") ∈ prev.cols) →
           getTag curr' ("changed_" ++ fs.getD k "") =
             some (mkChangedCol prev.rows curr.rows (fs.getD k "") contCol)) ∧
        ((∃ k', k' ≤ k ∧ ¬((fs.getD k' "") ∈ curr.cols ∧ (fs.getD k' "") ∈ prev.cols)) →
           getTag curr' ("changed_" ++ fs.getD k "") = getTag curr ("changed_" ++ fs.getD k ""))) := by
  induction fs generalizing curr with
  | nil =>
    exact ⟨curr, rfl, rfl, rfl, fun n _ => rfl, fun k hk => absurd hk (by simp)⟩
  | cons f rest ih =>
    have hfr : ∀ g ∈ rest, f ≠ g := by
      intro g hg
      intro hfg
      rw [List.nodup_cons] at hnodup
      exact hnodup.1 (hfg ▸ hg)
    by_cases hp : f ∈ curr.cols ∧ f ∈ prev.cols
    · have hstep : processFields prev curr (f :: rest) =
          processFields prev
            (setTag curr ("changed_" ++ f) (mkChangedCol prev.rows curr.rows f contCol)) rest := by
        rw [processFields, if_pos hp, hcont]
      have hcont1 : getTag
          (setTag curr ("changed_" ++ f) (mkChangedCol prev.rows curr.rows f contCol))
          "continued" = some contCol := by
        rw [getTag_setTag_ne _ _ _ _ (Ne.symm (hne f (List.mem_cons_self _ _)))]
        exact hcont
      obtain ⟨curr', heq, hrows, hcols, hpres, hks⟩ :=
        ih (setTag curr ("changed_" ++ f) (mkChangedCol prev.rows curr.rows f contCol))
          hcont1 (fun g hg => hne g (List.mem_cons_of_mem _ hg))
          ((List.nodup_cons.mp hnodup).2)
      refine ⟨curr', by rw [hstep]; exact heq, ?_, ?_, ?_, ?_⟩
      · rw [hrows, setTag_rows]
      · rw [hcols, setTag_cols]
      · intro n hn
        rw [hpres n (fun g hg => hn g (List.mem_cons_of_mem _ hg)),
          getTag_setTag_ne _ _ _ _ (hn f (List.mem_cons_self _ _))]
      · intro k hk
        cases k with
        | zero =>
          constructor
          · intro _
            have hne0 : ∀ g ∈ rest, ("changed_" ++ f) ≠ "changed_" ++ g := by
              intro g hg hfg
              exact hfr g hg (string_append_cancel_left _ _ _ hfg)
            simp only [List.getD_cons_zero]
            rw [hpres _ hne0]
            exact getTag_setTag_self _ _ _
          · intro ⟨k', hk', hnp⟩
            have : k' = 0 := Nat.le_zero.mp hk'
            subst this
            simp only [List.getD_cons_zero] at hnp
            exact absurd hp hnp
        | succ k'' =>
          have hk2 : k'' < rest.length := by simpa using hk
          obtain ⟨hkpos, hkneg⟩ := hks k'' hk2
          constructor
          · intro hall
            have hall' : ∀ k', k' ≤ k'' →
                (rest.getD k' "") ∈
                  (setTag curr ("changed_" ++ f)
                    (mkChangedCol prev.rows curr.rows f contCol)).cols ∧
                (rest.getD k' "") ∈ prev.cols := by
              intro k' hk'
              rw [setTag_cols]
              have := hall (k' + 1) (by omega)
              simpa using this
            have := hkpos hall'
            rw [setTag_rows] at this
            simpa using this
          · intro ⟨k', hk', hnp⟩
            cases k' with
            | zero =>
              simp only [List.getD_cons_zero] at hnp
              exact absurd hp hnp
            | succ k3 =>
              have hk3 : k3 ≤ k'' := by omega
              have hnp' : ¬((rest.getD k3 "") ∈
                  (setTag curr ("changed_" ++ f)
                    (mkChangedCol prev.rows curr.rows f contCol)).cols ∧
                  (rest.getD k3 "") ∈ prev.cols) := by
                rw [setTag_cols]
                simpa using hnp
              have := hkneg ⟨k3, hk3, hnp'⟩
              simp only [List.getD_cons_succ]
              rw [this, getTag_setTag_ne]
              intro hfg
              have hmem : rest.getD k'' "" ∈ rest := by
                rw [List.getD_eq_getElem _ _ hk2]
                exact List.getElem_mem hk2
              exact hfr _ hmem (string_append_cancel_left _ _ _ hfg).symm
    · refine ⟨curr, by rw [processFields, if_neg hp], rfl, rfl, fun n _ => rfl, ?_⟩
      intro k hk
      constructor
      · intro hall
        exact absurd (by simpa using hall 0 (Nat.zero_le _)) hp
      · intro _
        rfl

theorem zip_get?_eq {α β : Type} (l1 : List α) (l2 : List β) (j : Nat) (a : α) (b : β)
    (h1 : l1.get? j = some a) (h2 : l2.get? j = some b) :
    (l1.zip l2).get? j = some (a, b) := by
  rw [List.zip_eq_zipWith, List.get?_zipWith', h1, h2]
  rfl

theorem tagContinued_cols_getD (ws : List Wave) (k : Nat) (hk : k < ws.length) :
    ((tagContinued ws).getD k emptyWave).cols = (ws.getD k emptyWave).cols := by
  rw [tagContinued_getD ws k hk]
  split
  · rfl
  · rw [setTag_cols]

theorem tagcell_eq_one_iff (b : Bool) :
    (some (some (if b then (1 : Nat) else 0)) = some (some 1)) ↔ b = true := by
  cases b <;> simp

theorem mkChangedCol_get? (prevRows currRows : List Record) (f : String)
    (prevSlugs : List String) (j : Nat) (r : Record) (hjr : currRows.get? j = some r) :
    (mkChangedCol prevRows currRows f
        (currRows.map (fun r => some (if prevSlugs.contains r.slug then 1 else 0)))).get? j
      = some (some (if prevSlugs.contains r.slug
                      && pyNe (lastFieldValueBySlug prevRows f r.slug) (field_of r f)
                    then 1 else 0)) := by
  unfold mkChangedCol
  rw [List.get?_map,
    zip_get?_eq _ _ j r (some (if prevSlugs.contains r.slug then 1 else 0)) hjr
      (by rw [List.get?_map, hjr]; rfl)]
  simp only [Option.map_some']
  cases hm : prevSlugs.contains r.slug <;> simp [hm]

/-- C7: after `tag_continued`, `tag_field_changes` succeeds; for each wave
`i ≥ 1` and each monitored field taken in order, if that field and all fields
before it are present in the schemas of both wave `i-1` and wave `i`, the
wave gets a `changed_<field>` column in which a row is 1 iff its slug
appeared in wave `i-1` (that is, its `continued` tag is 1, by
`tag_continued`) and the field's value differs — Python `!=`, looked up by
slug via the previous wave's slug→value dict, not by row position — and if
any field up to it is missing from either schema, that `changed_<field>` tag
is absent for the wave (the `break` skips it and all remaining fields). -/
theorem c7_adjacent_field_changes (ws : List Wave)
    (hclean : ∀ w ∈ ws, w.tags = []) :
    ∃ ws2, tagFieldChanges (tagContinued ws) = .ok ws2 ∧
      ∀ i, 1 ≤ i → i < ws.length →
      ∃ w2, ws2.get? i = some w2 ∧
      ∀ k, k < TAG_CHANGE_FIELDS.length →
        ((∀ k', k' ≤ k →
            (TAG_CHANGE_FIELDS.getD k' "") ∈ (ws.getD i emptyWave).cols ∧
            (TAG_CHANGE_FIELDS.getD k' "") ∈ (ws.getD (i - 1) emptyWave).cols) →
          ∃ col, getTag w2 ("changed_" ++ TAG_CHANGE_FIELDS.getD k "") = some col ∧
            ∀ j r, (ws.getD i emptyWave).rows.get? j = some r →
              (col.get? j = some (some 1) ↔
                (r.slug ∈ slugList (ws.getD (i - 1) emptyWave) ∧
                 pyNe (lastFieldValueBySlug (ws.getD (i - 1) emptyWave).rows
                         (TAG_CHANGE_FIELDS.getD k "") r.slug)
                      (field_of r (TAG_CHANGE_FIELDS.getD k "")) = true))) ∧
        ((∃ k', k' ≤ k ∧
            ¬((TAG_CHANGE_FIELDS.getD k' "") ∈ (ws.getD i emptyWave).cols ∧
              (TAG_CHANGE_FIELDS.getD k' "") ∈ (ws.getD (i - 1) emptyWave).cols)) →
          getTag w2 ("changed_" ++ TAG_CHANGE_FIELDS.getD k "") = none) := by
  have hlen : (tagContinued ws).length = ws.length := length_tagContinued ws
  have hcontified : ∀ i, 1 ≤ i → i < ws.length →
      (tagContinued ws).getD i emptyWave =
        setTag (ws.getD i emptyWave) "continued"
          ((ws.getD i emptyWave).rows.map (fun r =>
            some (if (slugList (ws.getD (i - 1) emptyWave)).contains r.slug then 1 else 0))) := by
    intro i h1 hi
    rw [tagContinued_getD ws i hi, if_neg (by omega)]
  have hcont : ∀ i, 1 ≤ i → i < ws.length →
      getTag ((tagContinued ws).getD i emptyWave) "continued" =
        some ((ws.getD i emptyWave).rows.map (fun r =>
          some (if (slugList (ws.getD (i - 1) emptyWave)).contains r.slug then 1 else 0))) := by
    intro i h1 hi
    rw [hcontified i h1 hi]
    exact getTag_setTag_self _ _ _
  have hspec : ∀ i, 1 ≤ i → i < ws.length →
      ∃ curr', processFields ((tagContinued ws).getD (i - 1) emptyWave)
          ((tagContinued ws).getD i emptyWave) TAG_CHANGE_FIELDS = .ok curr' ∧
        curr'.rows = ((tagContinued ws).getD i emptyWave).rows ∧
        curr'.cols = ((tagContinued ws).getD i emptyWave).cols ∧
        (∀ n, (∀ f ∈ TAG_CHANGE_FIELDS, n ≠ "changed_" ++ f) →
          getTag curr' n = getTag ((tagContinued ws).getD i emptyWave) n) ∧
        (∀ k, k < TAG_CHANGE_FIELDS.length →
          ((∀ k', k' ≤ k →
              (TAG_CHANGE_FIELDS.getD k' "") ∈ ((tagContinued ws).getD i emptyWave).cols ∧
              (TAG_CHANGE_FIELDS.getD k' "") ∈ ((tagContinued ws).getD (i - 1) emptyWave).cols) →
            getTag curr' ("changed_" ++ TAG_CHANGE_FIELDS.getD k "") =
              some (mkChangedCol ((tagContinued ws).getD (i - 1) emptyWave).rows
                ((tagContinued ws).getD i emptyWave).rows (TAG_CHANGE_FIELDS.getD k "")
                ((ws.getD i emptyWave).rows.map (fun r =>
                  some (if (slugList (ws.getD (i - 1) emptyWave)).contains r.slug
                        then 1 else 0))))) ∧
          ((∃ k', k' ≤ k ∧
              ¬((TAG_CHANGE_FIELDS.getD k' "") ∈ ((tagContinued ws).getD i emptyWave).cols ∧
                (TAG_CHANGE_FIELDS.getD k' "") ∈
                  ((tagContinued ws).getD (i - 1) emptyWave).cols)) →
            getTag curr' ("changed_" ++ TAG_CHANGE_FIELDS.getD k "") =
              getTag ((tagContinued ws).getD i emptyWave)
                ("changed_" ++ TAG_CHANGE_FIELDS.getD k ""))) := by
    intro i h1 hi
    exact processFields_spec _ _ _ _ (hcont i h1 hi) (by decide) (by decide)
  have hallok : ∀ x ∈ List.range (tagContinued ws).length,
      ∃ y, (fun i =>
        if i = 0 then .ok ((tagContinued ws).getD i emptyWave)
        else processFields ((tagContinued ws).getD (i - 1) emptyWave)
          ((tagContinued ws).getD i emptyWave) TAG_CHANGE_FIELDS) x = Except.ok y := by
    intro x hx
    by_cases hx0 : x = 0
    · exact ⟨(tagContinued ws).getD x emptyWave, by simp [hx0]⟩
    · have hxr : x < ws.length := by rw [← hlen]; exact List.mem_range.mp hx
      obtain ⟨curr', heq, _⟩ := hspec x (by omega) hxr
      exact ⟨curr', by simpa [hx0] using heq⟩
  obtain ⟨ws2, hws2⟩ := mapE_ok_of_forall _ _ hallok
  refine ⟨ws2, hws2, ?_⟩
  intro i h1 hi
  obtain ⟨w2, hw2, hfw2⟩ := mapE_get? _ _ _ hws2 i i
    (List.get?_range (by rw [hlen]; exact hi))
  have hi0 : ¬ i = 0 := by omega
  simp only [if_neg hi0] at hfw2
  obtain ⟨curr', heq, hrows, hcols, hpres, hks⟩ := hspec i h1 hi
  rw [heq] at hfw2
  have hw2' : ws2.get? i = some curr' := by
    rw [hw2, Option.some.injEq]
    exact (Except.ok.inj hfw2).symm
  refine ⟨curr', hw2', ?_⟩
  intro k hk
  obtain ⟨hkpos, hkneg⟩ := hks k hk
  have hcolseq : ((tagContinued ws).getD i emptyWave).cols = (ws.getD i emptyWave).cols :=
    tagContinued_cols_getD ws i hi
  have hcolseq' : ((tagContinued ws).getD (i - 1) emptyWave).cols =
      (ws.getD (i - 1) emptyWave).cols :=
    tagContinued_cols_getD ws (i - 1) (by omega)
  have hrowseq : ((tagContinued ws).getD i emptyWave).rows = (ws.getD i emptyWave).rows :=
    tagContinued_rows_getD ws i hi
  have hrowseq' : ((tagContinued ws).getD (i - 1) emptyWave).rows =
      (ws.getD (i - 1) emptyWave).rows :=
    tagContinued_rows_getD ws (i - 1) (by omega)
  constructor
  · intro hall
    have hall' : ∀ k', k' ≤ k →
        (TAG_CHANGE_FIELDS.getD k' "") ∈ ((tagContinued ws).getD i emptyWave).cols ∧
        (TAG_CHANGE_FIELDS.getD k' "") ∈ ((tagContinued ws).getD (i - 1) emptyWave).cols := by
      intro k' hk'
      rw [hcolseq, hcolseq']
      exact hall k' hk'
    refine ⟨_, hkpos hall', ?_⟩
    intro j r hjr
    rw [hrowseq, hrowseq']
    rw [mkChangedCol_get? _ _ _ (slugList (ws.getD (i - 1) emptyWave)) j r hjr]
    rw [tagcell_eq_one_iff, Bool.and_eq_true]
    simp [List.elem_iff]
  · intro hex
    have hex' : ∃ k', k' ≤ k ∧
        ¬((TAG_CHANGE_FIELDS.getD k' "") ∈ ((tagContinued ws).getD i emptyWave).cols ∧
          (TAG_CHANGE_FIELDS.getD k' "") ∈ ((tagContinued ws).getD (i - 1) emptyWave).cols) := by
      obtain ⟨k', hk', hnp⟩ := hex
      exact ⟨k', hk', by rw [hcolseq, hcolseq']; exact hnp⟩
    rw [hkneg hex']
    have hfieldmem : TAG_CHANGE_FIELDS.getD k "" ∈ TAG_CHANGE_FIELDS := by
      rw [List.getD_eq_getElem _ _ hk]
      exact List.getElem_mem hk
    have hnc : ("changed_" ++ TAG_CHANGE_FIELDS.getD k "") ≠ "continued" := by
      have : ∀ f ∈ TAG_CHANGE_FIELDS, ("changed_" ++ f) ≠ "continued" := by decide
      exact this _ hfieldmem
    rw [hcontified i h1 hi, getTag_setTag_ne _ _ _ _ hnc]
    unfold getTag
    rw [hclean _ (getD_mem ws i hi)]
    rfl

theorem c7_adjacent_field_changes_witness :
    (∀ w ∈ wsC7, w.tags = []) ∧
    (∃ ws2, tagFieldChanges (tagContinued wsC7) = .ok ws2 ∧
      ∀ i, 1 ≤ i → i < wsC7.length →
      ∃ w2, ws2.get? i = some w2 ∧
      ∀ k, k < TAG_CHANGE_FIELDS.length →
        ((∀ k', k' ≤ k →
            (TAG_CHANGE_FIELDS.getD k' "") ∈ (wsC7.getD i emptyWave).cols ∧
            (TAG_CHANGE_FIELDS.getD k' "") ∈ (wsC7.getD (i - 1) emptyWave).cols) →
          ∃ col, getTag w2 ("changed_" ++ TAG_CHANGE_FIELDS.getD k "") = some col ∧
            ∀ j r, (wsC7.getD i emptyWave).rows.get? j = some r →
              (col.get? j = some (some 1) ↔
                (r.slug ∈ slugList (wsC7.getD (i - 1) emptyWave) ∧
                 pyNe (lastFieldValueBySlug (wsC7.getD (i - 1) emptyWave).rows
                         (TAG_CHANGE_FIELDS.getD k "") r.slug)
                      (field_of r (TAG_CHANGE_FIELDS.getD k "")) = true))) ∧
        ((∃ k', k' ≤ k ∧
            ¬((TAG_CHANGE_FIELDS.getD k' "") ∈ (wsC7.getD i emptyWave).cols ∧
              (TAG_CHANGE_FIELDS.getD k' "") ∈ (wsC7.getD (i - 1) emptyWave).cols)) →
          getTag w2 ("changed_" ++ TAG_CHANGE_FIELDS.getD k "") = none)) :=
  ⟨by decide, c7_adjacent_field_changes wsC7 (by decide)⟩

theorem c3_counterexample : c3probe = none ∧ licCond recC3 "active" = .ok true := by decide

theorem c4_counterexample :
    isErr (mapE tagLicenseStatus wsC4) = false ∧ isErr c4pipeline = true := by decide

/-- C6 counterexample: an issue-date string that fails to parse makes
`tag_license_status` raise (ValueError from `strptime`), rather than being
treated as absent with the tags coming out 0. -/
theorem c6_counterexample :
    isErr (parseCell parseMDY (some "13/77/bad")) = true ∧
    isErr (tagLicenseStatus waveC6) = true := by decide

/-- C4 (amended): TemporalTagger steps degrade by omission for missing
columns except the assumed-license back-propagation step: whenever some wave
has a `license` column but no `active_license` tag (which happens when
`tag_license_status` created none, as no status equals a bare category word),
`tag_assumed_license_status` raises a KeyError instead of completing. -/
theorem c4_assumed_license_raises (ws : List Wave) (k : Nat) (hk : k < ws.length)
    (hlic : "license" ∈ (ws.getD k emptyWave).cols)
    (htag : getTag (ws.getD k emptyWave) "active_license" = none) :
    isErr (tagAssumedLicenseStatus ws) = true := by
  unfold tagAssumedLicenseStatus
  cases hba : buildAfter ws with
  | error e => rfl
  | ok afterSets =>
    have herr : isErr (if "license" ∈ (ws.getD k emptyWave).cols
        then activeSlugsOf (ws.getD k emptyWave)
        else .ok ([] : List String)) = true := by
      rw [if_pos hlic]
      unfold activeSlugsOf
      rw [htag]
      rfl
    have hm := mapE_isErr_of_mem
      (fun w => if "license" ∈ w.cols then activeSlugsOf w else .ok []) ws
      (ws.getD k emptyWave) (getD_mem ws k hk) herr
    cases hx : mapE (fun w => if "license" ∈ w.cols then activeSlugsOf w else .ok []) ws with
    | error e => rfl
    | ok atSets => rw [hx] at hm; simp [isErr] at hm

theorem c4_assumed_license_raises_witness :
    (0 < wsC4w.length ∧ "license" ∈ (wsC4w.getD 0 emptyWave).cols ∧
      getTag (wsC4w.getD 0 emptyWave) "active_license" = none) ∧
    isErr (tagAssumedLicenseStatus wsC4w) = true :=
  ⟨⟨by decide, by decide, by decide⟩,
   c4_assumed_license_raises wsC4w 0 (by decide) (by decide) (by decide)⟩

theorem string_append_cancel_right (s a b : String) (h : a ++ s = b ++ s) : a = b := by
  have hd : a.data ++ s.data = b.data ++ s.data := by
    have := congrArg String.data h
    simpa [String.data_append] using this
  exact String.ext (List.append_cancel_right hd)

theorem isErr_false_iff {ε α : Type} (e : Except ε α) :
    isErr e = false ↔ ∃ y, e = .ok y := by
  cases e <;> simp [isErr]

theorem lookup_append_general {α : Type} (l1 l2 : List (String × α)) (m : String) :
    (l1 ++ l2).lookup m =
      (match l1.lookup m with | some v => some v | none => l2.lookup m) := by
  induction l1 with
  | nil => rfl
  | cons p rest ih =>
    by_cases hp : m = p.1
    · have hb : (m == p.1) = true := by simp [hp]
      simp only [List.cons_append, List.lookup, hb]
    · have hb : (m == p.1) = false := by simp [hp]
      simp only [List.cons_append, List.lookup, hb]
      exact ih

theorem setTags_tags (w : Wave) (ts : List (String × List (Option Nat)))
    (hfresh : ∀ p ∈ ts, w.tags.lookup p.1 = none)
    (hnodup : (ts.map Prod.fst).Nodup) :
    (setTags w ts).tags = w.tags ++ ts := by
  induction ts generalizing w with
  | nil => simp [setTags]
  | cons p rest ih =>
    obtain ⟨n, c⟩ := p
    have hn : w.tags.lookup n = none := hfresh _ (List.mem_cons_self _ _)
    have hw1 : (setTag w n c).tags = w.tags ++ [(n, c)] := by
      unfold setTag
      rw [hn]
      rfl
    rw [setTags, ih (setTag w n c) ?fresh ?nodup]
    case fresh =>
      intro p' hp'
      rw [hw1, lookup_append_of_none _ _ _ _ (hfresh _ (List.mem_cons_of_mem _ hp'))]
      have hne : p'.1 ≠ n := by
        intro he
        have : n ∈ rest.map Prod.fst := by
          rw [← he]
          exact List.mem_map_of_mem _ hp'
        exact (List.nodup_cons.mp hnodup).1 this
      simp [hne]
    case nodup => exact (List.nodup_cons.mp hnodup).2
    rw [hw1, List.append_assoc]
    rfl

theorem lookup_guardTags_notmem (l ex : List String) (mk : String → List (Option Nat))
    (name : String) (hname : ∀ c ∈ l, name ≠ c ++ "_license") :
    (l.filterMap (fun c =>
      if c ∈ ex then some (c ++ "_license", mk c) else none)).lookup name = none := by
  induction l with
  | nil => rfl
  | cons c rest ih =>
    rw [List.filterMap_cons]
    by_cases hc : c ∈ ex
    · rw [if_pos hc]
      have hb : (name == c ++ "_license") = false := by
        simp [hname c (List.mem_cons_self _ _)]
      simp only [List.lookup, hb]
      exact ih (fun c' hc' => hname c' (List.mem_cons_of_mem _ hc'))
    · rw [if_neg hc]
      exact ih (fun c' hc' => hname c' (List.mem_cons_of_mem _ hc'))

theorem lookup_guardTags (l ex : List String) (mk : String → List (Option Nat))
    (cat : String) (hcat : cat ∈ l) (hnd : l.Nodup) :
    (l.filterMap (fun c =>
        if c ∈ ex then some (c ++ "_license", mk c) else none)).lookup (cat ++ "_license")
      = if cat ∈ ex then some (mk cat) else none := by
  induction l with
  | nil => simp at hcat
  | cons c rest ih =>
    rw [List.filterMap_cons]
    rcases List.mem_cons.mp hcat with rfl | hcat'
    · by_cases hc : cat ∈ ex
      · rw [if_pos hc, if_pos hc]
        simp [List.lookup]
      · rw [if_neg hc, if_neg hc]
        have hninr : cat ∉ rest := (List.nodup_cons.mp hnd).1
        refine lookup_guardTags_notmem rest ex mk _ ?_
        intro c' hc' h
        exact hninr (by rw [string_append_cancel_right _ _ _ h]; exact hc')
    · have hcne : c ≠ cat := by
        rintro rfl
        exact (List.nodup_cons.mp hnd).1 hcat'
      by_cases hc : c ∈ ex
      · rw [if_pos hc]
        have hb : (cat ++ "_license" == c ++ "_license") = false := by
          simp only [beq_eq_false_iff_ne, ne_eq]
          intro h
          exact hcne (string_append_cancel_right _ _ _ h).symm
        simp only [List.lookup, hb]
        exact ih hcat' (List.nodup_cons.mp hnd).2
      · rw [if_neg hc]
        exact ih hcat' (List.nodup_cons.mp hnd).2

theorem map_fst_filterMap_guard (l ex : List String) (mk : String → List (Option Nat)) :
    (l.filterMap (fun c =>
        if c ∈ ex then some (c ++ "_license", mk c) else none)).map Prod.fst
      = (l.filter (fun c => decide (c ∈ ex))).map (fun c => c ++ "_license") := by
  induction l with
  | nil => rfl
  | cons c rest ih =>
    rw [List.filterMap_cons, List.filter_cons]
    by_cases hc : c ∈ ex
    · simp only [if_pos hc, hc, List.map_cons]
      simp [ih]
    · simp only [if_neg hc, hc]
      simp [ih, hc]

/-- C3 (amended): in a wave with a `license` column (all of whose present
date strings parse), a category tag `<cat>_license` exists iff the bare
category word occurs as an exact status value of some record
(`'cat' in file['status'].unique()`); when it exists, a record's tag is 1
iff license present ∧ issue date present ∧ parsed issue date ≤ parsed access
date ∧ status contains the category word (`licCond`). -/
theorem c3_license_status_tagging (w : Wave) (htags : w.tags = [])
    (hlic : "license" ∈ w.cols)
    (hparse : ∀ r ∈ w.rows, isErr (parseCell parseMDY r.issue_date) = false ∧
                            isErr (parseCell parseYMD r.access_date) = false)
    (cat : String) (hcat : cat ∈ LICENSE_STATUSES) :
    ∃ w', tagLicenseStatus w = .ok w' ∧
      (cat ∉ exactStatuses w → getTag w' (cat ++ "_license") = none) ∧
      (cat ∈ exactStatuses w → ∃ col, getTag w' (cat ++ "_license") = some col ∧
        ∀ j r b, w.rows.get? j = some r → licCond r cat = .ok b →
          col.get? j = some (some (if b then 1 else 0))) := by
  obtain ⟨issueDs, h1⟩ := mapE_ok_of_forall (fun r => parseCell parseMDY r.issue_date) w.rows
    (fun r hr => (isErr_false_iff _).mp (hparse r hr).1)
  obtain ⟨accessDs, h2⟩ := mapE_ok_of_forall (fun r => parseCell parseYMD r.access_date) w.rows
    (fun r hr => (isErr_false_iff _).mp (hparse r hr).2)
  have hrun : tagLicenseStatus w = .ok (setTags w
      ((LICENSE_STATUSES.filterMap (fun cat' =>
        if cat' ∈ exactStatuses w then
          some (cat' ++ "_license",
            (w.rows.zip (issueDs.zip accessDs)).map (fun x : Record × (Option Nat × Option Nat) =>
              some (if x.1.license.isSome && x.1.issue_date.isSome
                       && cmpLe x.2.1 x.2.2 && containsSub x.1.status cat'
                    then 1 else 0)))
        else none)) ++
       [("possible_license", w.rows.map (fun r : Record =>
          some (if r.license.isSome && r.issue_date.isNone then 1 else 0))),
        ("future_license_explicit", (w.rows.zip (issueDs.zip accessDs)).map (fun x : Record × (Option Nat × Option Nat) =>
          some (if x.1.license.isSome && x.1.issue_date.isSome && cmpGt x.2.1 x.2.2
                then 1 else 0)))])) := by
    unfold tagLicenseStatus
    rw [if_pos hlic, h1, h2]
  refine ⟨_, hrun, ?_, ?_⟩
  all_goals
    have hfst := map_fst_filterMap_guard LICENSE_STATUSES (exactStatuses w)
      (fun cat' => (w.rows.zip (issueDs.zip accessDs)).map (fun x : Record × (Option Nat × Option Nat) =>
        some (if x.1.license.isSome && x.1.issue_date.isSome
                 && cmpLe x.2.1 x.2.2 && containsSub x.1.status cat'
              then 1 else 0)))
    have hsub : ((LICENSE_STATUSES.filter
          (fun c => decide (c ∈ exactStatuses w))).map (fun c => c ++ "_license")).Sublist
        (LICENSE_STATUSES.map (fun c => c ++ "_license")) :=
      List.Sublist.map _ (List.filter_sublist _)
    have hnodupA : ((LICENSE_STATUSES.filterMap (fun cat' =>
        if cat' ∈ exactStatuses w then
          some (cat' ++ "_license",
            (w.rows.zip (issueDs.zip accessDs)).map (fun x : Record × (Option Nat × Option Nat) =>
              some (if x.1.license.isSome && x.1.issue_date.isSome
                       && cmpLe x.2.1 x.2.2 && containsSub x.1.status cat'
                    then 1 else 0)))
        else none)).map Prod.fst).Nodup := by
      rw [hfst]
      exact List.Nodup.sublist hsub (by decide)
    have hAmem : ∀ a ∈ ((LICENSE_STATUSES.filterMap (fun cat' =>
        if cat' ∈ exactStatuses w then
          some (cat' ++ "_license",
            (w.rows.zip (issueDs.zip accessDs)).map (fun x : Record × (Option Nat × Option Nat) =>
              some (if x.1.license.isSome && x.1.issue_date.isSome
                       && cmpLe x.2.1 x.2.2 && containsSub x.1.status cat'
                    then 1 else 0)))
        else none)).map Prod.fst),
        a ∈ LICENSE_STATUSES.map (fun c => c ++ "_license") := by
      intro a ha
      rw [hfst] at ha
      exact hsub.subset ha
    have hnames : (((LICENSE_STATUSES.filterMap (fun cat' =>
        if cat' ∈ exactStatuses w then
          some (cat' ++ "_license",
            (w.rows.zip (issueDs.zip accessDs)).map (fun x : Record × (Option Nat × Option Nat) =>
              some (if x.1.license.isSome && x.1.issue_date.isSome
                       && cmpLe x.2.1 x.2.2 && containsSub x.1.status cat'
                    then 1 else 0)))
        else none)) ++
       [("possible_license", w.rows.map (fun r : Record =>
          some (if r.license.isSome && r.issue_date.isNone then 1 else 0))),
        ("future_license_explicit", (w.rows.zip (issueDs.zip accessDs)).map (fun x : Record × (Option Nat × Option Nat) =>
          some (if x.1.license.isSome && x.1.issue_date.isSome && cmpGt x.2.1 x.2.2
                then 1 else 0)))]).map Prod.fst).Nodup := by
      rw [List.map_append]
      refine List.Nodup.append hnodupA ?_ ?_
      · simp
      intro a ha hb
      have := hAmem a ha
      have hfree : ∀ x ∈ LICENSE_STATUSES.map (fun c => c ++ "_license"),
          x ∉ (["possible_license", "future_license_explicit"] : List String) := by decide
      have hb' : a ∈ (["possible_license", "future_license_explicit"] : List String) := by
        simpa using hb
      exact hfree a this hb'
    have htagsres := setTags_tags w _ (by rw [htags]; intro p _; rfl) hnames
    rw [htags, List.nil_append] at htagsres
  · intro hnotex
    unfold getTag
    rw [htagsres]
    rw [lookup_append_general, lookup_guardTags _ _ _ _ hcat (by decide), if_neg hnotex]
    have hne2 : ∀ c ∈ LICENSE_STATUSES, c ++ "_license" ≠ "possible_license" ∧
        c ++ "_license" ≠ "future_license_explicit" := by decide
    have hb1 : (cat ++ "_license" == "possible_license") = false := by
      simp [(hne2 cat hcat).1]
    have hb2 : (cat ++ "_license" == "future_license_explicit") = false := by
      simp [(hne2 cat hcat).2]
    simp only [List.lookup, hb1, hb2]
  · intro hex
    unfold getTag
    rw [htagsres]
    rw [lookup_append_general, lookup_guardTags _ _ _ _ hcat (by decide), if_pos hex]
    refine ⟨_, rfl, ?_⟩
    intro j r b hjr hb
    obtain ⟨iD, hiDs, hiok⟩ := mapE_get? _ _ _ h1 j r hjr
    obtain ⟨aD, haDs, haok⟩ := mapE_get? _ _ _ h2 j r hjr
    unfold licCond at hb
    rw [hiok, haok] at hb
    obtain rfl := (Except.ok.inj hb).symm
    rw [List.get?_map, zip_get?_eq _ _ j r (iD, aD) hjr (zip_get?_eq _ _ j iD aD hiDs haDs)]
    rfl

theorem c3_license_status_tagging_witness :
    (waveC3w.tags = [] ∧ "license" ∈ waveC3w.cols ∧
     (∀ r ∈ waveC3w.rows, isErr (parseCell parseMDY r.issue_date) = false ∧
                          isErr (parseCell parseYMD r.access_date) = false) ∧
     "active" ∈ LICENSE_STATUSES) ∧
    (∃ w', tagLicenseStatus waveC3w = .ok w' ∧
      ("active" ∉ exactStatuses waveC3w → getTag w' ("active" ++ "_license") = none) ∧
      ("active" ∈ exactStatuses waveC3w →
        ∃ col, getTag w' ("active" ++ "_license") = some col ∧
          ∀ j r b, waveC3w.rows.get? j = some r → licCond r "active" = .ok b →
            col.get? j = some (some (if b then 1 else 0)))) :=
  ⟨⟨rfl, by decide, by decide, by decide⟩,
   c3_license_status_tagging waveC3w rfl (by decide) (by decide) "active" (by decide)⟩

/-- C6 (amended): a missing (NaN) date passes through the converter
unchanged and the date comparisons involving it evaluate false, so for a
record with no issue date every category tag and `future_license_explicit`
come out 0, and (when every present date string parses) the computation does
not crash.  A present date string that fails to parse, by contrast, raises
(see the counterexample). -/
theorem c6_missing_date_treated_absent (w : Wave) (hlic : "license" ∈ w.cols)
    (htags : w.tags = [])
    (hparse : ∀ r ∈ w.rows, isErr (parseCell parseMDY r.issue_date) = false ∧
                            isErr (parseCell parseYMD r.access_date) = false) :
    ∃ w', tagLicenseStatus w = .ok w' ∧
      ∀ j r, w.rows.get? j = some r → r.issue_date = none →
        (∀ name col, name ∈ LICENSE_STATUSES.map (fun c => c ++ "_license") →
           getTag w' name = some col → col.get? j = some (some 0)) ∧
        (∀ col, getTag w' "future_license_explicit" = some col →
           col.get? j = some (some 0)) := by
  obtain ⟨issueDs, h1⟩ := mapE_ok_of_forall (fun r => parseCell parseMDY r.issue_date) w.rows
    (fun r hr => (isErr_false_iff _).mp (hparse r hr).1)
  obtain ⟨accessDs, h2⟩ := mapE_ok_of_forall (fun r => parseCell parseYMD r.access_date) w.rows
    (fun r hr => (isErr_false_iff _).mp (hparse r hr).2)
  have hrun : tagLicenseStatus w = .ok (setTags w
      ((LICENSE_STATUSES.filterMap (fun cat' =>
        if cat' ∈ exactStatuses w then
          some (cat' ++ "_license",
            (w.rows.zip (issueDs.zip accessDs)).map
              (fun x : Record × (Option Nat × Option Nat) =>
              some (if x.1.license.isSome && x.1.issue_date.isSome
                       && cmpLe x.2.1 x.2.2 && containsSub x.1.status cat'
                    then 1 else 0)))
        else none)) ++
       [("possible_license", w.rows.map (fun r : Record =>
          some (if r.license.isSome && r.issue_date.isNone then 1 else 0))),
        ("future_license_explicit", (w.rows.zip (issueDs.zip accessDs)).map
          (fun x : Record × (Option Nat × Option Nat) =>
          some (if x.1.license.isSome && x.1.issue_date.isSome && cmpGt x.2.1 x.2.2
                then 1 else 0)))])) := by
    unfold tagLicenseStatus
    rw [if_pos hlic, h1, h2]
  have hfst := map_fst_filterMap_guard LICENSE_STATUSES (exactStatuses w)
    (fun cat' => (w.rows.zip (issueDs.zip accessDs)).map
      (fun x : Record × (Option Nat × Option Nat) =>
      some (if x.1.license.isSome && x.1.issue_date.isSome
               && cmpLe x.2.1 x.2.2 && containsSub x.1.status cat'
            then 1 else 0)))
  have hsub : ((LICENSE_STATUSES.filter
        (fun c => decide (c ∈ exactStatuses w))).map (fun c => c ++ "_license")).Sublist
      (LICENSE_STATUSES.map (fun c => c ++ "_license")) :=
    List.Sublist.map _ (List.filter_sublist _)
  have hnodupA : ((LICENSE_STATUSES.filterMap (fun cat' =>
      if cat' ∈ exactStatuses w then
        some (cat' ++ "_license",
          (w.rows.zip (issueDs.zip accessDs)).map
            (fun x : Record × (Option Nat × Option Nat) =>
            some (if x.1.license.isSome && x.1.issue_date.isSome
                     && cmpLe x.2.1 x.2.2 && containsSub x.1.status cat'
                  then 1 else 0)))
      else none)).map Prod.fst).Nodup := by
    rw [hfst]
    exact List.Nodup.sublist hsub (by decide)
  have hnames : (((LICENSE_STATUSES.filterMap (fun cat' =>
      if cat' ∈ exactStatuses w then
        some (cat' ++ "_license",
          (w.rows.zip (issueDs.zip accessDs)).map
            (fun x : Record × (Option Nat × Option Nat) =>
            some (if x.1.license.isSome && x.1.issue_date.isSome
                     && cmpLe x.2.1 x.2.2 && containsSub x.1.status cat'
                  then 1 else 0)))
      else none)) ++
     [("possible_license", w.rows.map (fun r : Record =>
        some (if r.license.isSome && r.issue_date.isNone then 1 else 0))),
      ("future_license_explicit", (w.rows.zip (issueDs.zip accessDs)).map
        (fun x : Record × (Option Nat × Option Nat) =>
        some (if x.1.license.isSome && x.1.issue_date.isSome && cmpGt x.2.1 x.2.2
              then 1 else 0)))]).map Prod.fst).Nodup := by
    rw [List.map_append]
    refine List.Nodup.append hnodupA ?_ ?_
    · simp
    intro a ha hb
    have hmem : a ∈ LICENSE_STATUSES.map (fun c => c ++ "_license") := by
      rw [hfst] at ha
      exact hsub.subset ha
    have hfree : ∀ x ∈ LICENSE_STATUSES.map (fun c => c ++ "_license"),
        x ∉ (["possible_license", "future_license_explicit"] : List String) := by decide
    have hb' : a ∈ (["possible_license", "future_license_explicit"] : List String) := by
      simpa using hb
    exact hfree a hmem hb'
  have htagsres := setTags_tags w _ (by rw [htags]; intro p _; rfl) hnames
  rw [htags, List.nil_append] at htagsres
  refine ⟨_, hrun, ?_⟩
  intro j r hjr hissue
  obtain ⟨iD, hiDs, hiok⟩ := mapE_get? _ _ _ h1 j r hjr
  obtain ⟨aD, haDs, haok⟩ := mapE_get? _ _ _ h2 j r hjr
  have hzip := zip_get?_eq _ _ j r (iD, aD) hjr (zip_get?_eq _ _ j iD aD hiDs haDs)
  constructor
  · intro name col hname hcol
    obtain ⟨cat, hcatmem, rfl⟩ := List.mem_map.mp hname
    unfold getTag at hcol
    rw [htagsres, lookup_append_general,
      lookup_guardTags _ _ _ _ hcatmem (by decide)] at hcol
    by_cases hex : cat ∈ exactStatuses w
    · rw [if_pos hex] at hcol
      obtain rfl := (Option.some.inj hcol).symm
      rw [List.get?_map, hzip]
      simp [hissue]
    · rw [if_neg hex] at hcol
      have hne2 : ∀ c ∈ LICENSE_STATUSES, c ++ "_license" ≠ "possible_license" ∧
          c ++ "_license" ≠ "future_license_explicit" := by decide
      have hb1 : (cat ++ "_license" == "possible_license") = false := by
        simp [(hne2 cat hcatmem).1]
      have hb2 : (cat ++ "_license" == "future_license_explicit") = false := by
        simp [(hne2 cat hcatmem).2]
      simp only [List.lookup, hb1, hb2] at hcol
      exact Option.noConfusion hcol
  · intro col hcol
    unfold getTag at hcol
    rw [htagsres, lookup_append_general] at hcol
    rw [lookup_guardTags_notmem _ _ _ _ (by decide)] at hcol
    have hb1 : (("future_license_explicit" : String) == "possible_license") = false := by decide
    simp only [List.lookup, hb1, beq_self_eq_true] at hcol
    obtain rfl := (Option.some.inj hcol).symm
    rw [List.get?_map, hzip]
    simp [hissue]

theorem c6_missing_date_treated_absent_witness :
    ("license" ∈ waveC6w.cols ∧ waveC6w.tags = [] ∧
     (∀ r ∈ waveC6w.rows, isErr (parseCell parseMDY r.issue_date) = false ∧
                          isErr (parseCell parseYMD r.access_date) = false)) ∧
    (∃ w', tagLicenseStatus waveC6w = .ok w' ∧
      ∀ j r, waveC6w.rows.get? j = some r → r.issue_date = none →
        (∀ name col, name ∈ LICENSE_STATUSES.map (fun c => c ++ "_license") →
           getTag w' name = some col → col.get? j = some (some 0)) ∧
        (∀ col, getTag w' "future_license_explicit" = some col →
           col.get? j = some (some 0))) :=
  ⟨⟨by decide, rfl, by decide⟩,
   c6_missing_date_treated_absent waveC6w (by decide) rfl (by decide)⟩

/-- C5 counterexample: wave 0 carries tag `t1`, wave 1 carries `t2, t3`.
The union of observed tags contains `t1`, but `standardize_files` keeps only
the largest single tag set `[t2, t3]`, so wave 1 never receives `t1` — not
even filled with the "not applicable" marker. -/
theorem c5_counterexample :
    "t1" ∈ unionTags fullC5 wsC5 ∧
    (standardizeFiles fullC5 wsC5).2 = ["t2", "t3"] ∧
    getTag ((standardizeFiles fullC5 wsC5).1.getD 1 emptyWave) "t1" = none := by decide

theorem pickStep_ge_left (best cur : List String) :
    best.length ≤ (pickStep best cur).length := by
  unfold pickStep
  split
  · omega
  · omega

theorem pickStep_ge_right (best cur : List String) :
    cur.length ≤ (pickStep best cur).length := by
  unfold pickStep
  split
  · omega
  · omega

theorem foldl_pickStep_ge_init (l : List (List String)) (init : List String) :
    init.length ≤ (l.foldl pickStep init).length := by
  induction l generalizing init with
  | nil => exact le_refl _
  | cons c rest ih => exact le_trans (pickStep_ge_left init c) (ih (pickStep init c))

theorem foldl_pickStep_ge_mem (l : List (List String)) (init d : List String)
    (hd : d ∈ l) : d.length ≤ (l.foldl pickStep init).length := by
  induction l generalizing init with
  | nil => simp at hd
  | cons c rest ih =>
    rcases List.mem_cons.mp hd with rfl | hd'
    · exact le_trans (pickStep_ge_right init d) (foldl_pickStep_ge_init rest _)
    · exact ih (pickStep init c) hd'

theorem foldl_pickStep_mem (l : List (List String)) (init : List String) :
    l.foldl pickStep init = init ∨ l.foldl pickStep init ∈ l := by
  induction l generalizing init with
  | nil => exact Or.inl rfl
  | cons c rest ih =>
    rcases ih (pickStep init c) with h | h
    · rw [List.foldl_cons, h]
      unfold pickStep
      split
      · exact Or.inr (List.mem_cons_self _ _)
      · exact Or.inl rfl
    · exact Or.inr (List.mem_cons_of_mem _ h)

theorem lookup_mem {α : Type} (l : List (String × α)) (k : String) (v : α)
    (h : l.lookup k = some v) : (k, v) ∈ l := by
  induction l with
  | nil => simp [List.lookup] at h
  | cons p rest ih =>
    by_cases hp : k = p.1
    · have hb : (k == p.1) = true := by simp [hp]
      simp only [List.lookup, hb] at h
      obtain rfl := Option.some.inj h
      rw [hp]
      exact List.mem_cons_self _ _
    · have hb : (k == p.1) = false := by simp [hp]
      simp only [List.lookup, hb] at h
      exact List.mem_cons_of_mem _ (ih h)

theorem getTag_mem_waveColumns (w : Wave) (f : String) (c : List (Option Nat))
    (h : getTag w f = some c) : f ∈ waveColumns w := by
  unfold getTag at h
  unfold waveColumns
  refine List.mem_append.mpr (Or.inr ?_)
  have := lookup_mem _ _ _ h
  exact List.mem_map_of_mem Prod.fst this

theorem fillMissing_rows (fields : List String) (w : Wave) :
    (fillMissing w fields).rows = w.rows := by
  induction fields generalizing w with
  | nil => rfl
  | cons g rest ih =>
    unfold fillMissing at ih ⊢
    rw [List.foldl_cons]
    split
    · exact ih w
    · rw [ih, setTag_rows]

theorem fillMissing_preserves (fields : List String) (w : Wave) (f : String)
    (c : List (Option Nat)) (hin : getTag w f = some c) :
    getTag (fillMissing w fields) f = some c := by
  induction fields generalizing w with
  | nil => exact hin
  | cons g rest ih =>
    unfold fillMissing at ih ⊢
    rw [List.foldl_cons]
    split
    · exact ih w hin
    · rename_i hg
      have hgf : f ≠ g := by
        intro he
        exact hg (he ▸ getTag_mem_waveColumns w f c hin)
      refine ih _ ?_
      rw [getTag_setTag_ne _ _ _ _ hgf]
      exact hin

theorem fillMissing_getTag (fields : List String) (w : Wave) (f : String)
    (hf : f ∈ fields) (hnotin : f ∉ waveColumns w) :
    getTag (fillMissing w fields) f = some (List.replicate w.rows.length none) := by
  induction fields generalizing w with
  | nil => simp at hf
  | cons g rest ih =>
    unfold fillMissing at ih ⊢
    rw [List.foldl_cons]
    rcases List.mem_cons.mp hf with rfl | hf'
    · rw [if_neg hnotin]
      exact fillMissing_preserves rest _ f _ (getTag_setTag_self _ _ _)
    · split
      · exact ih w hf' hnotin
      · by_cases hgf : f = g
        · subst hgf
          exact fillMissing_preserves rest _ f _ (getTag_setTag_self _ _ _)
        · have hnotin' : f ∉ waveColumns (setTag w g (List.replicate w.rows.length none)) := by
            intro hmem
            unfold waveColumns at hmem
            rcases List.mem_append.mp hmem with h | h
            · rw [setTag_cols] at h
              exact hnotin (List.mem_append.mpr (Or.inl h))
            · have hw1 : (setTag w g (List.replicate w.rows.length none)).tags
                  = w.tags ++ [(g, List.replicate w.rows.length none)] := by
                unfold setTag
                rename_i hgm
                have hnone : w.tags.lookup g = none := by
                  cases hl : w.tags.lookup g with
                  | none => rfl
                  | some v =>
                    exact absurd (List.mem_append.mpr (Or.inr
                      (List.mem_map_of_mem Prod.fst (lookup_mem _ _ _ hl)))) hgm
                rw [hnone]
                rfl
              rw [hw1, List.map_append] at h
              rcases List.mem_append.mp h with h | h
              · exact hnotin (List.mem_append.mpr (Or.inr h))
              · simp at h
                exact hgf h
          have := ih _ hf' hnotin'
          rw [setTag_rows] at this
          exact this

/-- C5 (amended): output reconciliation does not use the union of observed
tags: it keeps the first per-wave tag set of maximal size
(`len(file_tags) > max_tag_num`), and every wave missing a tag of
*that* set receives the tag filled with the blank marker (one `none` per
row), which is distinct from 0 and from 1.  Tags outside the chosen set are
not propagated (see the counterexample). -/
theorem c5_standardize_uses_largest_tag_set (fullFiles ws : List Wave) :
    (∀ i, i < ws.length →
      (getColumnDifference (ws.getD i emptyWave) (fullFiles.getD i emptyWave)).length
        ≤ (standardizeFiles fullFiles ws).2.length) ∧
    ((standardizeFiles fullFiles ws).2 = [] ∨
      ∃ i, i < ws.length ∧ (standardizeFiles fullFiles ws).2
        = getColumnDifference (ws.getD i emptyWave) (fullFiles.getD i emptyWave)) ∧
    (∀ i, i < ws.length → ∀ f ∈ (standardizeFiles fullFiles ws).2,
      f ∉ waveColumns (ws.getD i emptyWave) →
        getTag ((standardizeFiles fullFiles ws).1.getD i emptyWave) f
          = some (List.replicate (ws.getD i emptyWave).rows.length none) ∧
        ((none : Option Nat) ≠ some 0 ∧ (none : Option Nat) ≠ some 1)) := by
  refine ⟨?_, ?_, ?_⟩
  · intro i hi
    refine foldl_pickStep_ge_mem _ _ _ ?_
    refine List.mem_map.mpr ⟨i, List.mem_range.mpr hi, rfl⟩
  · rcases foldl_pickStep_mem ((List.range ws.length).map (fun i =>
        getColumnDifference (ws.getD i emptyWave) (fullFiles.getD i emptyWave))) [] with h | h
    · exact Or.inl h
    · obtain ⟨i, hi, hd⟩ := List.mem_map.mp h
      exact Or.inr ⟨i, List.mem_range.mp hi, hd.symm⟩
  · intro i hi f hf hnotin
    have hget : (standardizeFiles fullFiles ws).1.getD i emptyWave
        = fillMissing (ws.getD i emptyWave) ((standardizeFiles fullFiles ws).2) := by
      have hlen : i < ((List.range ws.length).map (fun i =>
          fillMissing (ws.getD i emptyWave) (pickMaxTagSet ((List.range ws.length).map (fun i =>
            getColumnDifference (ws.getD i emptyWave) (fullFiles.getD i emptyWave)))))).length := by
        simpa using hi
      rw [show (standardizeFiles fullFiles ws).1 = (List.range ws.length).map (fun i =>
          fillMissing (ws.getD i emptyWave) (pickMaxTagSet ((List.range ws.length).map (fun i =>
            getColumnDifference (ws.getD i emptyWave) (fullFiles.getD i emptyWave))))) from rfl]
      rw [List.getD_eq_getElem _ _ hlen]
      simp only [List.getElem_map, List.getElem_range]
      rfl
    rw [hget]
    exact ⟨fillMissing_getTag _ _ _ hf hnotin, by decide, by decide⟩

/-- C2 counterexample: in `wC2` exactly the slugs `b` and `d` lack an email
(all product sets are distinct, no phone column), so under the claim they
would share the "empty" email bucket and resolve to the same company.  The
code instead appends `b` to the stale bucket of `e1` (slug `a`) and `d` to
that of `e2` (slug `c`): resolution succeeds and `b` and `d` end up in
different companies. -/
theorem c2_counterexample :
    ((groupedOf wC2).filterMap (fun g => if g.email.isNone then some g.slug else none))
      = ["b", "d"] ∧
    c2probe = false := by decide

/-- C10: whenever the first grouped row (first slug in sorted slug order)
has a null email — in particular when its email or product set is null —
`gen_company_mapping` fails with an unbound-variable error (NameError)
during bucketing, for any id generator.  (After `frozenset` aggregation a
product set is never null, so the email variable is the one left
unbound.) -/
theorem c10_first_null_email_raises (gen : Nat → String) (w : Wave) (g : GroupedRow)
    (hhead : (groupedOf w).head? = some g) (hemail : g.email = none) :
    isErr (genCompanyMapping gen w) = true := by
  have hstep : ∀ pc, isErr (buckStep pc initBuck g) = true := by
    intro pc
    cases pc
    · simp [buckStep, buckPhone, hemail, Option.or, initBuck, isErr]
    · cases hop : g.phone
      · simp [buckStep, buckPhone, hemail, hop, Option.or, initBuck, isErr]
      · simp [buckStep, buckPhone, hemail, hop, Option.or, initBuck, isErr]
  cases hgr : groupedOf w with
  | nil => rw [hgr] at hhead; simp at hhead
  | cons g0 rest =>
    rw [hgr] at hhead
    have hg : g = g0 := by
      have h2 := hhead
      simp at h2
      exact h2.symm
    subst hg
    cases hbs : buckStep (w.cols.contains "phone") initBuck g with
    | ok st =>
      have h3 := hstep (w.cols.contains "phone")
      rw [hbs] at h3
      simp [isErr] at h3
    | error e =>
      have hloop : buckLoop (w.cols.contains "phone") initBuck (g :: rest) = .error e := by
        unfold buckLoop
        rw [hbs]
      unfold genCompanyMapping genCompanyClasses
      rw [hgr, hloop]
      rfl

theorem c10_first_null_email_raises_witness :
    ((groupedOf wC10).head?
        = some { slug := "a", email := none, phone := none, prodSet := (["p"], false) } ∧
      ({ slug := "a", email := none, phone := none,
         prodSet := (["p"], false) } : GroupedRow).email = none) ∧
    isErr (genCompanyMapping (fun n => String.mk (List.replicate n 'y')) wC10) = true :=
  ⟨⟨by decide, rfl⟩,
   c10_first_null_email_raises (fun n => String.mk (List.replicate n 'y')) wC10
     { slug := "a", email := none, phone := none, prodSet := (["p"], false) }
     (by decide) rfl⟩

theorem lookup_map_const (c : List String) (v : String) (a : String) :
    (c.map (fun s => (s, v))).lookup a = if c.contains a then some v else none := by
  induction c with
  | nil => rfl
  | cons x xs ih =>
    by_cases hx : a = x
    · have hb : (a == x) = true := by simp [hx]
      have hc : ((x :: xs).contains a) = true := by
        simp [hx]
      simp only [List.map_cons, List.lookup, hb, hc, if_true]
    · have hb : (a == x) = false := by simp [hx]
      simp only [List.map_cons, List.lookup, hb, ih]
      have hc : ((x :: xs).contains a) = (xs.contains a) := by
        simp [List.contains_cons]
        intro he
        exact absurd he hx
      rw [hc]

theorem lookup_assignIdsAux (g : Nat → String) (cs : List (List String)) (i : Nat)
    (a : String) :
    (assignIdsAux g i cs).lookup a = (classIdx cs a).map (fun k => g (i + k)) := by
  induction cs generalizing i with
  | nil => rfl
  | cons c rest ih =>
    rw [assignIdsAux, lookup_append_general, lookup_map_const, classIdx]
    by_cases hc : c.contains a = true
    · rw [if_pos hc, if_pos hc]
      simp
    · rw [if_neg hc, if_neg (by simpa using hc)]
      rw [ih (i + 1)]
      cases h : classIdx rest a with
      | none => rfl
      | some k =>
        simp only [Option.map_some']
        have : i + 1 + k = i + (k + 1) := by omega
        rw [this]

/-- C9: the partition produced by `gen_company_mapping` does not depend on
the generated ids: two runs on the same unchanged wave, with any two
injective fresh-id generators (uuid1 ids are distinct within a run), give
mappings that group slugs identically — even though the ids themselves may
differ between the runs. -/
theorem c9_partition_stable (g1 g2 : Nat → String)
    (h1 : Function.Injective g1) (h2 : Function.Injective g2) (w : Wave)
    (m1 m2 : List (String × String))
    (hm1 : genCompanyMapping g1 w = .ok m1) (hm2 : genCompanyMapping g2 w = .ok m2)
    (a b : String) :
    sameCompany m1 a b = sameCompany m2 a b := by
  unfold genCompanyMapping at hm1 hm2
  cases hcs : genCompanyClasses w with
  | error e => rw [hcs] at hm1; simp at hm1
  | ok cs =>
    rw [hcs] at hm1 hm2
    obtain rfl := Except.ok.inj hm1
    obtain rfl := Except.ok.inj hm2
    unfold sameCompany
    rw [lookup_assignIdsAux, lookup_assignIdsAux, lookup_assignIdsAux, lookup_assignIdsAux]
    cases ha : classIdx cs a with
    | none => rfl
    | some ka =>
      cases hb : classIdx cs b with
      | none => rfl
      | some kb =>
        simp only [Option.map_some']
        by_cases hk : ka = kb
        · subst hk
          simp
        · have hg1 : (g1 (0 + ka) == g1 (0 + kb)) = false := by
            simp only [beq_eq_false_iff_ne, ne_eq]
            intro he
            have h3 := h1 he
            omega
          have hg2 : (g2 (0 + ka) == g2 (0 + kb)) = false := by
            simp only [beq_eq_false_iff_ne, ne_eq]
            intro he
            have h3 := h2 he
            omega
          rw [hg1, hg2]

theorem replicate_gen_injective (c : Char) :
    Function.Injective (fun n => String.mk (List.replicate n c)) := by
  intro x y h
  have h2 := congrArg (fun s => s.data.length) h
  simpa using h2

theorem c9_partition_stable_witness :
    (Function.Injective (fun n => String.mk (List.replicate n 'x')) ∧
     Function.Injective (fun n => String.mk (List.replicate n 'y')) ∧
     genCompanyMapping (fun n => String.mk (List.replicate n 'x')) wC9
       = .ok [("a", ""), ("b", "")] ∧
     genCompanyMapping (fun n => String.mk (List.replicate n 'y')) wC9
       = .ok [("a", ""), ("b", "")]) ∧
    sameCompany [("a", ""), ("b", "")] "a" "b" = sameCompany [("a", ""), ("b", "")] "a" "b" :=
  ⟨⟨replicate_gen_injective 'x', replicate_gen_injective 'y', by decide, by decide⟩,
   c9_partition_stable _ _ (replicate_gen_injective 'x') (replicate_gen_injective 'y') wC9
     _ _ (by decide) (by decide) "a" "b"⟩

theorem htGet_htAppend_self {κ : Type} [DecidableEq κ] (ht : List (κ × List String))
    (k : κ) (s : String) : htGet k (htAppend ht k s) = htGet k ht ++ [s] := by
  induction ht with
  | nil => simp [htAppend, htGet]
  | cons p rest ih =>
    obtain ⟨k', l⟩ := p
    by_cases hk : k' = k
    · simp [htAppend, htGet, hk]
    · simp [htAppend, htGet, hk, ih]

theorem htGet_htAppend_ne {κ : Type} [DecidableEq κ] (ht : List (κ × List String))
    (k k0 : κ) (s : String) (h : k0 ≠ k) : htGet k0 (htAppend ht k s) = htGet k0 ht := by
  induction ht with
  | nil =>
    show htGet k0 [(k, [s])] = htGet k0 []
    simp only [htGet]
    rw [if_neg (fun he => h he.symm)]
  | cons p rest ih =>
    obtain ⟨k', l⟩ := p
    simp only [htAppend]
    by_cases hk : k' = k
    · rw [if_pos hk]
      have h2 : ¬(k' = k0) := by rw [hk]; exact fun he => h he.symm
      simp only [htGet]
      rw [if_neg h2, if_neg h2]
    · rw [if_neg hk]
      simp only [htGet]
      by_cases h3 : k' = k0
      · rw [if_pos h3, if_pos h3]
      · rw [if_neg h3, if_neg h3]
        exact ih

theorem htMem_htAppend_self {κ : Type} [DecidableEq κ] (ht : List (κ × List String))
    (k : κ) (s : String) : htMem (htAppend ht k s) k s = true := by
  rw [htMem, htGet_htAppend_self]
  simp

theorem htMem_htAppend_mono {κ : Type} [DecidableEq κ] (ht : List (κ × List String))
    (k k0 : κ) (s s0 : String) (h : htMem ht k0 s0 = true) :
    htMem (htAppend ht k s) k0 s0 = true := by
  by_cases hk : k0 = k
  · subst hk
    rw [htMem, htGet_htAppend_self]
    rw [htMem] at h
    simp at h ⊢
    exact Or.inl h
  · rw [htMem, htGet_htAppend_ne _ _ _ _ hk]
    exact h

theorem buckStep_email (pc : Bool) (st : BuckState) (g : GroupedRow) (st' : BuckState)
    (h : buckStep pc st g = .ok st') :
    st'.emailVar = g.email.or st.emailVar ∧
    (∃ e, g.email.or st.emailVar = some e ∧ htMem st'.emailHt e g.slug = true) ∧
    (∀ k s, htMem st.emailHt k s = true → htMem st'.emailHt k s = true) := by
  unfold buckStep at h
  split at h
  · exact absurd h (by simp)
  · split at h
    · exact absurd h (by simp)
    · rename_i pk hpk
      split at h
      · exact absurd h (by simp)
      · rename_i ek hek
        obtain rfl := (Except.ok.inj h).symm
        exact ⟨by rw [hek], ⟨ek, hek, htMem_htAppend_self _ _ _⟩,
          fun k s hk => htMem_htAppend_mono _ _ _ _ _ hk⟩

theorem buckLoop_email_spec (pc : Bool) (grs : List GroupedRow) :
    ∀ st st', buckLoop pc st grs = .ok st' →
    (∀ k s, htMem st.emailHt k s = true → htMem st'.emailHt k s = true) ∧
    (∀ j g, grs.get? j = some g →
      ∃ e, lastEmailD st.emailVar (grs.take (j + 1)) = some e ∧
        htMem st'.emailHt e g.slug = true) := by
  induction grs with
  | nil =>
    intro st st' h
    have h2 : (Except.ok st : Except String BuckState) = .ok st' := by
      simpa [buckLoop] using h
    obtain rfl := Except.ok.inj h2
    exact ⟨fun k s hk => hk, fun j g hj => by simp at hj⟩
  | cons g0 gs ih =>
    intro st st' h
    unfold buckLoop at h
    cases hbs : buckStep pc st g0 with
    | error e => rw [hbs] at h; simp at h
    | ok st1 =>
      rw [hbs] at h
      obtain ⟨hev, ⟨e0, he0, hm0⟩, hmono0⟩ := buckStep_email pc st g0 st1 hbs
      obtain ⟨hmono1, hspec1⟩ := ih st1 st' h
      refine ⟨fun k s hk => hmono1 _ _ (hmono0 _ _ hk), ?_⟩
      intro j g hj
      cases j with
      | zero =>
        simp only [List.get?] at hj
        obtain rfl := Option.some.inj hj
        exact ⟨e0, by simpa [lastEmailD] using he0, hmono1 _ _ hm0⟩
      | succ j' =>
        simp only [List.get?] at hj
        obtain ⟨e, he, hm⟩ := hspec1 j' g hj
        refine ⟨e, ?_, hm⟩
        rw [List.take_succ_cons]
        rw [show lastEmailD st.emailVar (g0 :: gs.take (j' + 1))
            = lastEmailD (g0.email.or st.emailVar) (gs.take (j' + 1)) from rfl]
        rw [← hev]
        exact he

/-- C2 (amended): missing values do not form a shared "empty" bucket.  In
the bucketing loop the `email` variable is only re-assigned on rows with a
non-null email, so every grouped row — in particular every row with a null
email — is appended to the email bucket keyed by the most recent non-null
email at or before it in sorted slug order (and the resolver fails when the
first row's email is null, see C10).  Product-name sets are never null after
`frozenset` aggregation, so no product bucket arises from a missing
value. -/
theorem c2_missing_email_stale_bucket (w : Wave) (st : BuckState)
    (hok : buckLoop (w.cols.contains "phone") initBuck (groupedOf w) = .ok st)
    (j : Nat) (g : GroupedRow) (hj : (groupedOf w).get? j = some g) :
    ∃ e, emailKeyAt (groupedOf w) j = some e ∧ htMem st.emailHt e g.slug = true :=
  (buckLoop_email_spec (w.cols.contains "phone") (groupedOf w) initBuck st hok).2 j g hj

theorem c2_missing_email_stale_bucket_witness :
    (buckLoop (wC2.cols.contains "phone") initBuck (groupedOf wC2) = .ok stC2 ∧
     (groupedOf wC2).get? 1
       = some { slug := "b", email := none, phone := none, prodSet := (["p2"], false) }) ∧
    (∃ e, emailKeyAt (groupedOf wC2) 1 = some e ∧ htMem stC2.emailHt e "b" = true) :=
  ⟨⟨by decide, by decide⟩,
   c2_missing_email_stale_bucket wC2 stC2 (by decide) 1
     { slug := "b", email := none, phone := none, prodSet := (["p2"], false) } (by decide)⟩
